import Mathlib

/-!
cam_lidar_calibration: feature extractor

A shallow embedding of `src/feature_extractor.cpp` (class `FeatureExtractor`).

Modelling conventions.
* `float` / `double` values are exact rationals (`ℚ`); rounding, NaN and
  infinities are outside the model.
* `ℚ` has no square-root function, so the computation of the cloud-side normal,
  whose properties depend on `sqrt` being the square root, is also transcribed
  over an arbitrary ordered field (`velodyneNormalIn`); over `ℚ` with the
  library `sqrt` it is the function the pipeline uses.
* A `pcl::PointCloud` is the list of its `points`; a pointer into a cloud is the
  index of the element it points to.
* Indexing a `std::vector` outside its size is undefined behaviour in the
  source; the model reports it as a `Fault` instead of inventing a value.
* Calls into PCL / OpenCV whose result is not determined by the source
  (RANSAC fits, plane projection, chessboard detection, PnP, square root) are
  fields of `Env` or of `Image`; PCL routines with a fixed arithmetic meaning
  (`PassThrough`, `ExtractIndices`, `lineWithLineIntersection`) are transcribed.
-/

namespace CamLidar

/-! ## Data -/

/-- The point type `pcl::PointXYZIR` (declared in `point_xyzir.h`). -/
structure PointXYZIR where
  x : ℚ
  y : ℚ
  z : ℚ
  intensity : ℚ
  ring : ℕ
deriving DecidableEq

/-- The alias `PointCloud = pcl::PointCloud<pcl::PointXYZIR>`: its `points`. -/
abbrev PointCloud := List PointXYZIR

/-- A 3-vector: `pcl::PointXYZ`, `Eigen::Vector3f`, `cv::Point3f`, or the first three
entries of an `Eigen::Vector4f`. -/
structure Vec3 where
  x : ℚ
  y : ℚ
  z : ℚ
deriving DecidableEq

/-- The member `bounds_` (`cam_lidar_calibration::boundsConfig`). -/
structure Bounds where
  x_min : ℚ
  x_max : ℚ
  y_min : ℚ
  y_max : ℚ
  z_min : ℚ
  z_max : ℚ

/-- Containers the source indexes with `operator[]`. -/
inductive Container where
  | cloud_bounded
  | candidate_segments
  | basic_cloud
  | min_points
  | max_points
  | inliers_right_dwn
  | inliers_left_dwn
  | line_coefficients
deriving DecidableEq

/-- An undefined-behaviour read: container, index read, size of the container. -/
structure Fault where
  container : Container
  index : ℕ
  size : ℕ
deriving DecidableEq

/-- Checked form of `v[i]`: the element when `i < v.size()`, a fault otherwise. -/
def readAt {α : Type} (c : Container) (v : List α) (i : ℕ) : Except Fault α :=
  match v[i]? with
  | some a => Except.ok a
  | none => Except.error ⟨c, i, v.length⟩

/-! ## `pcl::PassThrough` and `FeatureExtractor::passthrough` -/

/-- The call `pass.filter(output)` of a `pcl::PassThrough` whose field and limits have been set.
When no input cloud was set, `initCompute` fails and `output` is left as it was; otherwise the
output is the input points whose field value lies in `[limit_min, limit_max]`
(`field_value < limit_min || field_value > limit_max` are dropped), in input order. -/
def PassThrough.filter (input : Option PointCloud) (field : PointXYZIR → ℚ)
    (limit_min limit_max : ℚ) (output : PointCloud) : PointCloud :=
  match input with
  | none => output
  | some pc => pc.filter (fun p => decide (¬ (field p < limit_min ∨ field p > limit_max)))

/-- The method `FeatureExtractor::passthrough`: filter on x, then on z, then on y. -/
def passthrough (bounds_ : Bounds) (input_pc : PointCloud) : PointCloud :=
  let x := PassThrough.filter (some input_pc) (fun p => p.x) bounds_.x_min bounds_.x_max []
  let z := PassThrough.filter (some x) (fun p => p.z) bounds_.z_min bounds_.z_max []
  PassThrough.filter (some z) (fun p => p.y) bounds_.y_min bounds_.y_max []

/-- The closed-box predicate of the spatial filter. -/
def inBox (b : Bounds) (p : PointXYZIR) : Prop :=
  (b.x_min ≤ p.x ∧ p.x ≤ b.x_max) ∧ (b.y_min ≤ p.y ∧ p.y ≤ b.y_max) ∧
    (b.z_min ≤ p.z ∧ p.z ≤ b.z_max)

instance (b : Bounds) (p : PointXYZIR) : Decidable (inBox b p) := by
  unfold inBox; infer_instance

/-! ## Ring extrema (`extractRegionOfInterest`, "FIND THE MAX AND MIN POINTS IN EVERY RING") -/

/-- Value used by the model for a read through an index that is not in the cloud. The buckets
only ever hold indices of existing elements, so it is never observed. -/
def PointXYZIR.zero : PointXYZIR := ⟨0, 0, 0, 0, 0⟩

/-- Dereference of the pointer `&(cloud_projected->points[i])`. -/
def deref (cloud : PointCloud) (i : ℕ) : PointXYZIR := cloud.getD i PointXYZIR.zero

/-- The first loop: `candidate_segments[ring_number].push_back(&(cloud_projected->points[i]))`
for `i = 0 .. size-1`; `i` is the index of the head of the unread part of the cloud. A ring
number outside `candidate_segments` is an out-of-range access. -/
def bucketLoop : List PointXYZIR → ℕ → List (List ℕ) → Except Fault (List (List ℕ))
  | [], _, segs => Except.ok segs
  | p :: rest, i, segs =>
    if p.ring < segs.length then
      bucketLoop rest (i + 1) (segs.set p.ring (segs.getD p.ring [] ++ [i]))
    else Except.error ⟨Container.candidate_segments, p.ring, segs.length⟩

/-- Buckets `candidate_segments(lidar_ring_count)` after the first loop. -/
def bucketByRing (lidar_ring_count : ℕ) (cloud_projected : PointCloud) :
    Except Fault (List (List ℕ)) :=
  bucketLoop cloud_projected 0 (List.replicate lidar_ring_count [])

/-- The three assignments `temp = *k; *k = *j; *j = temp` on the pointed-to points. -/
def swapPoints (cloud : PointCloud) (pj pk : ℕ) : PointCloud :=
  let temp := deref cloud pk
  let cloud1 := cloud.set pk (deref cloud pj)
  cloud1.set pj temp

/-- Body of the innermost loop for positions `j`, `k` of one bucket. -/
def sortStep (seg : List ℕ) (j : ℕ) (cloud : PointCloud) (k : ℕ) : PointCloud :=
  if (deref cloud (seg.getD j 0)).y < (deref cloud (seg.getD k 0)).y then
    swapPoints cloud (seg.getD j 0) (seg.getD k 0)
  else cloud

/-- The loop `for (k = j + 1; k < size; k++)`. -/
def sortInner (seg : List ℕ) (j : ℕ) (cloud : PointCloud) : PointCloud :=
  (List.range' (j + 1) (seg.length - (j + 1))).foldl (sortStep seg j) cloud

/-- The loop `for (j = 0; j < size; j++)` over one bucket. -/
def sortSegment (seg : List ℕ) (cloud : PointCloud) : PointCloud :=
  (List.range seg.length).foldl (fun c j => sortInner seg j c) cloud

/-- The second loop over all buckets; empty buckets are skipped. -/
def sortSegments (segs : List (List ℕ)) (cloud : PointCloud) : PointCloud :=
  segs.foldl (fun c seg => if seg.length = 0 then c else sortSegment seg c) cloud

/-- The third loop: `max = *seg[0]`, `min = *seg[size - 1]`, pushed for every non-empty
bucket. The result is `(max_points, min_points)`. -/
def collectExtrema (segs : List (List ℕ)) (cloud : PointCloud) : PointCloud × PointCloud :=
  segs.foldl
    (fun acc seg =>
      if seg.length = 0 then acc
      else (acc.1 ++ [deref cloud (seg.getD 0 0)],
            acc.2 ++ [deref cloud (seg.getD (seg.length - 1) 0)]))
    ([], [])

/-- The ring-extrema stage: `(max_points, min_points)` from `cloud_projected`. -/
def ringExtrema (lidar_ring_count : ℕ) (cloud_projected : PointCloud) :
    Except Fault (PointCloud × PointCloud) :=
  match bucketByRing lidar_ring_count cloud_projected with
  | Except.error f => Except.error f
  | Except.ok segs => Except.ok (collectExtrema segs (sortSegments segs cloud_projected))

/-- The point a bucket's `a`-th pointer points to. -/
def segVal (seg : List ℕ) (c : PointCloud) (a : ℕ) : PointXYZIR := deref c (seg.getD a 0)

/-- The cloud `c'` has the size of `c`, agrees with it outside the bucket `seg`, and holds at
the bucket's indices the same points as `c` does, possibly at other indices of the bucket. -/
def Rearranged (seg : List ℕ) (c c' : PointCloud) : Prop :=
  c'.length = c.length ∧ (∀ i, i ∉ seg → deref c' i = deref c i) ∧
  (∀ i ∈ seg, ∃ j ∈ seg, deref c' i = deref c j) ∧
  (∀ j ∈ seg, ∃ i ∈ seg, deref c' i = deref c j)

/-- Every bucket position below `J` holds a point whose `y` is at least that of every later
position of the bucket. -/
def DescUpTo (seg : List ℕ) (c : PointCloud) (J : ℕ) : Prop :=
  ∀ a b, a < J → a < b → b < seg.length → (segVal seg c b).y ≤ (segVal seg c a).y

/-- The indices of the bucket `seg` hold the same points in `c'` as in `c`, up to their
order. -/
def SameContent (seg : List ℕ) (c c' : PointCloud) : Prop :=
  (∀ i ∈ seg, ∃ j ∈ seg, deref c' i = deref c j) ∧
  (∀ j ∈ seg, ∃ i ∈ seg, deref c' i = deref c j)

/-- Indices, counted from `i`, of the points with ring `r` in a cloud suffix whose head has
index `i`. -/
def ringIndices (r : ℕ) : List PointXYZIR → ℕ → List ℕ
  | [], _ => []
  | p :: rest, i =>
    if p.ring = r then i :: ringIndices r rest (i + 1) else ringIndices r rest (i + 1)

/-- The ring indices below `n` that occur in the cloud, in increasing order. -/
def populatedRings (n : ℕ) (cloud : PointCloud) : List ℕ :=
  (List.range n).filter (fun r => decide (r ∈ cloud.map (fun p => p.ring)))

/-- A projected set with three populated rings out of four. -/
def ringSample : PointCloud :=
  [⟨0, 1, 0, 0, 1⟩, ⟨0, 3, 0, 0, 0⟩, ⟨0, 2, 0, 0, 1⟩, ⟨0, 5, 0, 0, 0⟩, ⟨0, 4, 0, 0, 3⟩,
   ⟨0, 7, 0, 0, 1⟩, ⟨0, -1, 0, 0, 0⟩]

/-! ## Vectors and lines (Eigen, `pcl::ModelCoefficients`) -/

/-- Component-wise sum. -/
def Vec3.add (a b : Vec3) : Vec3 := ⟨a.x + b.x, a.y + b.y, a.z + b.z⟩

/-- Component-wise difference. -/
def Vec3.sub (a b : Vec3) : Vec3 := ⟨a.x - b.x, a.y - b.y, a.z - b.z⟩

/-- Product with a scalar. -/
def Vec3.smul (s : ℚ) (a : Vec3) : Vec3 := ⟨s * a.x, s * a.y, s * a.z⟩

/-- Negation. -/
def Vec3.neg (a : Vec3) : Vec3 := ⟨-a.x, -a.y, -a.z⟩

/-- The Eigen product `a.dot(b)`. -/
def Vec3.dot (a b : Vec3) : ℚ := a.x * b.x + a.y * b.y + a.z * b.z

/-- The Eigen product `a.cross(b)`. -/
def Vec3.cross (a b : Vec3) : Vec3 :=
  ⟨a.y * b.z - a.z * b.y, a.z * b.x - a.x * b.z, a.x * b.y - a.y * b.x⟩

/-- The coordinates of a cloud point. -/
def PointXYZIR.xyz (p : PointXYZIR) : Vec3 := ⟨p.x, p.y, p.z⟩

/-- Coefficients of a fitted line (`SACMODEL_LINE`): `values[0..2]` a point on the line,
`values[3..5]` its direction. -/
structure Line where
  point : Vec3
  direction : Vec3
deriving DecidableEq

/-- The six values a `pcl::ModelCoefficients` must hold to be read as a line; a shorter vector
(a failed fit leaves it empty) is read out of range. -/
def lineOfCoefficients (values : List ℚ) : Except Fault Line :=
  match values with
  | px :: py :: pz :: dx :: dy :: dz :: _ => Except.ok ⟨⟨px, py, pz⟩, ⟨dx, dy, dz⟩⟩
  | _ => Except.error ⟨Container.line_coefficients, 5, values.length⟩

/-- PCL's `pcl::lineToLineSegment` (library code): the closest points of two lines. -/
def lineToLineSegment (line_a line_b : Line) : Vec3 × Vec3 :=
  let p1 := line_a.point
  let dir1 := line_a.direction
  let p2 := p1.add dir1
  let q1 := line_b.point
  let dir2 := line_b.direction
  let u := dir1
  let v := dir2
  let w := p2.sub q1
  let a := u.dot u
  let b := u.dot v
  let c := v.dot v
  let d := u.dot w
  let e := v.dot w
  let denominator := a * c - b * b
  let sc : ℚ := if denominator < 1 / 100000 then 0 else (b * e - c * d) / denominator
  let tc : ℚ :=
    if denominator < 1 / 100000 then (if b > c then d / b else e / c)
    else (a * e - b * d) / denominator
  (p2.add (Vec3.smul sc u), q1.add (Vec3.smul tc v))

/-- PCL's `pcl::lineWithLineIntersection` with its default `sqr_eps = 1e-4` (library code):
the closest point on `line_a` when the two closest points are nearer than the tolerance. -/
def lineWithLineIntersection (line_a line_b : Line) : Option Vec3 :=
  let seg := lineToLineSegment line_a line_b
  let sqr_dist := (seg.1.sub seg.2).dot (seg.1.sub seg.2)
  if sqr_dist < 1 / 10000 then some seg.1 else none

/-- PCL's `pcl::ExtractIndices` with `setNegative(true)` (library code): the points whose
index is not among `indices`, in input order. -/
def extractNegative (cloud : PointCloud) (indices : List ℕ) : PointCloud :=
  ((List.range cloud.length).filter (fun i => decide (i ∉ indices))).map (deref cloud)

/-! ## Corner reconstruction (`extractRegionOfInterest`, lines 422-493) -/

/-- The guarded push `if (pcl::lineWithLineIntersection(a, b, Point_l)) points.push_back(..)`. -/
def pushIntersection (basic_cloud : List Vec3) (line_a line_b : Line) : List Vec3 :=
  match lineWithLineIntersection line_a line_b with
  | some point_l => basic_cloud ++ [point_l]
  | none => basic_cloud

/-- The value `(diagonal.cross(p1)).dot(diagonal.cross(p2))` of the side test. -/
def sideTest (diagonal p1 p2 : Vec3) : ℚ := (diagonal.cross p1).dot (diagonal.cross p2)

/-- The two pushes of the branch chosen by the side test. -/
def pushRemaining (basic_cloud : List Vec3) (left_up left_dwn right_up right_dwn : Line)
    (diagonal p1 p2 : Vec3) : List Vec3 :=
  if sideTest diagonal p1 p2 > 0 then
    pushIntersection (pushIntersection basic_cloud left_dwn right_up) left_up right_dwn
  else
    pushIntersection (pushIntersection basic_cloud left_dwn right_dwn) left_up right_up

/-- The corner list `basic_cloud_ptr->points` built from the four fitted lines. The reads of
`points[1]`, `points[0]`, `indices[0]` and of the two extremum clouds are unchecked in the
source. -/
def cornerReconstruction (left_up left_dwn right_up right_dwn : Line)
    (min_points max_points : PointCloud) (inliers_right_dwn inliers_left_dwn : List ℕ) :
    Except Fault (List Vec3) := do
  let basic0 := pushIntersection [] left_up left_dwn
  let basic1 := pushIntersection basic0 right_up right_dwn
  let b1 ← readAt Container.basic_cloud basic1 1
  let b0 ← readAt Container.basic_cloud basic1 0
  let diagonal := b1.sub b0
  let i1 ← readAt Container.inliers_right_dwn inliers_right_dwn 0
  let m1 ← readAt Container.min_points min_points i1
  let p1 := m1.xyz.sub b0
  let i2 ← readAt Container.inliers_left_dwn inliers_left_dwn 0
  let m2 ← readAt Container.max_points max_points i2
  let p2 := m2.xyz.sub b0
  return pushRemaining basic1 left_up left_dwn right_up right_dwn diagonal p1 p2

/-! ## Configuration, collaborators and messages -/

/-- The parameters `i_params` (loaded by `loadParams`, declared outside this file), the member
`diagonal`, and the service constants `Sample::Request::CAPTURE` / `DISCARD`. -/
structure Params where
  chessboard_pattern_size_width : ℕ
  chessboard_pattern_size_height : ℕ
  square_length : ℚ
  board_dimensions_width : ℚ
  board_dimensions_height : ℚ
  cb_translation_error : Vec3
  lidar_ring_count : ℕ
  diagonal : ℚ
  CAPTURE : ℤ
  DISCARD : ℤ

/-- A 3x3 matrix by rows (`tmprmat`, the rotation block of `chessboardpose`). -/
structure Mat3 where
  row0 : Vec3
  row1 : Vec3
  row2 : Vec3
deriving DecidableEq

/-- An image, represented by what OpenCV computes from it: whether `findChessboardCorners`
finds the pattern, and the pose `cv::Rodrigues(rvec)`, `tvec` that `solvePnP` recovers from
its corners. -/
structure Image where
  pattern_found : Bool
  tmprmat : Mat3
  tvec : Vec3
deriving DecidableEq

/-- Library calls whose result the source does not determine: `sqrt`, the RANSAC plane fit
`seg.segment` (inlier indices, coefficient values), `pcl::ProjectInliers`, and the four RANSAC
line fits in call order (0: left-up, 1: left-down, 2: right-up, 3: right-down). -/
structure Env where
  sqrt : ℚ → ℚ
  segmentPlane : PointCloud → List ℕ × List ℚ
  projectInliers : List ℚ → PointCloud → PointCloud
  segmentLine : ℕ → PointCloud → List ℕ × List ℚ

/-- The message `cam_lidar_calibration::calibration_data` (`sample_data`). -/
structure SampleData where
  velodynepoint : Vec3
  velodynenormal : Vec3
  camerapoint : Vec3
  cameranormal : Vec3
  velodynecorner : Vec3
deriving DecidableEq

/-- Texts logged with `ROS_INFO` / `ROS_WARN`. -/
inductive LogMsg where
  | capturing_sample
  | discarding_last_sample
  | processing_sample
  | no_chessboard_found
  | chessboard_found
  | publishing_chessboard_image
  | plane_segmentation_failed
deriving DecidableEq

/-- Observable effects, in program order: log lines and publications per publisher. -/
inductive Event where
  | log (msg : LogMsg)
  | expt_region (cloud : PointCloud)
  | camera_features
  | velodyne_features (cloud : PointCloud)
  | board_corners_3d (id : ℕ) (points : List Vec3)
  | visualization_marker (id : ℕ) (points : List Vec3)
  | roi_points (sample : SampleData)
deriving DecidableEq

/-- The mutable members read and written here: the capture `flag` and `bounds_`. -/
structure State where
  flag : ℤ
  bounds_ : Bounds

/-! ## `sampleCB` and `boundsCB` -/

/-- The service callback `FeatureExtractor::sampleCB`: logs by operation, stores the operation
in `flag`, answers `true`. -/
def sampleCB (params : Params) (st : State) (operation : ℤ) : State × List Event × Bool :=
  let logs :=
    if operation = params.CAPTURE then [Event.log LogMsg.capturing_sample]
    else if operation = params.DISCARD then [Event.log LogMsg.discarding_last_sample]
    else []
  ({ st with flag := operation }, logs, true)

/-- The reconfigure callback `FeatureExtractor::boundsCB`. -/
def boundsCB (st : State) (config : Bounds) : State := { st with bounds_ := config }

/-! ## `chessboardProjection` and `locateChessboard` -/

/-- The point `chessboard_centre`: `(width, height, 0) * (0.5 * square_length)`. -/
def chessboard_centre (params : Params) : Vec3 :=
  Vec3.smul (1 / 2 * params.square_length)
    ⟨params.chessboard_pattern_size_width, params.chessboard_pattern_size_height, 0⟩

/-- The vector `corners_3d`: `(x, y, 0) * square_length - chessboard_centre`, `y` outer loop,
`x` inner loop. -/
def corners_3d (params : Params) : List Vec3 :=
  (List.range params.chessboard_pattern_size_height).flatMap fun y : ℕ =>
    (List.range params.chessboard_pattern_size_width).map fun x : ℕ =>
      (Vec3.smul params.square_length ⟨(x : ℚ), (y : ℚ), 0⟩).sub (chessboard_centre params)

/-- The vector `board_corners_3d`: four board corners (`x` outer loop, `y` inner loop), then
the board centre, all shifted by `-cb_translation_error`. -/
def board_corners_3d (params : Params) : List Vec3 :=
  ((List.range 2).flatMap fun x : ℕ =>
    (List.range 2).map fun y : ℕ =>
      (⟨(-1 / 2 + (x : ℚ)) * params.board_dimensions_width,
        (-1 / 2 + (y : ℚ)) * params.board_dimensions_height, 0⟩ : Vec3).sub
        params.cb_translation_error) ++
  [params.cb_translation_error.neg]

/-- One column of `corner_vectors`: rows of `chessboardpose` applied to `pt` as the source
writes it, `pose(i,0) * pt.x + pose(i,1) * pt.y + pose(i,3)`. -/
def cornerVector (tmprmat : Mat3) (tvec : Vec3) (pt : Vec3) : Vec3 :=
  ⟨tmprmat.row0.x * pt.x + tmprmat.row0.y * pt.y + tvec.x,
   tmprmat.row1.x * pt.x + tmprmat.row1.y * pt.y + tvec.y,
   tmprmat.row2.x * pt.x + tmprmat.row2.y * pt.y + tvec.z⟩

/-- Column `k` of `cv::Mat::eye(3, 5)`, the initial content of `corner_vectors`. -/
def eyeColumn (k : ℕ) : Vec3 :=
  ⟨if k = 0 then 1 else 0, if k = 1 then 1 else 0, if k = 2 then 1 else 0⟩

/-- The matrix `corner_vectors` (3x5) by columns: column `k` is overwritten for every
`k < board_corners_3d.size()`. -/
def corner_vectors (params : Params) (image : Image) : List Vec3 :=
  (List.range 5).map fun k =>
    match (board_corners_3d params)[k]? with
    | some pt => cornerVector image.tmprmat image.tvec pt
    | none => eyeColumn k

/-- The row vector `chessboard_normal = (0, 0, 1) * R^T`. -/
def chessboard_normal (image : Image) : Vec3 :=
  ⟨image.tmprmat.row0.z, image.tmprmat.row1.z, image.tmprmat.row2.z⟩

/-- The method `FeatureExtractor::locateChessboard`: its effects and its optional result
`(corner_vectors, chessboard_normal)`. -/
def locateChessboard (params : Params) (image : Image) :
    List Event × Option (List Vec3 × Vec3) :=
  if image.pattern_found = false then ([Event.log LogMsg.no_chessboard_found], none)
  else
    ([Event.log LogMsg.chessboard_found, Event.log LogMsg.publishing_chessboard_image,
      Event.camera_features],
     some (corner_vectors params image, chessboard_normal image))

/-! ## Cloud side of `extractRegionOfInterest` -/

/-- The loop computing `z_max`, started from `z0 = points[0].z`. -/
def zMaxLoop (cloud_bounded : PointCloud) (z0 : ℚ) : ℚ :=
  cloud_bounded.foldl (fun z_max p => if p.z > z_max then p.z else z_max) z0

/-- The height-band crop (lines 283-296): `z_max`, then `cloud_filtered`. The filter `pass_z`
receives a field name and limits but no input cloud, so `pass_z.filter(*cloud_filtered)` leaves
the freshly created `cloud_filtered` as it is. Reading `points[0]` is unchecked. -/
def heightBand (diagonal : ℚ) (cloud_bounded : PointCloud) : Except Fault (ℚ × PointCloud) := do
  let p0 ← readAt Container.cloud_bounded cloud_bounded 0
  let z_max := zMaxLoop cloud_bounded p0.z
  let z_min := z_max - diagonal
  let cloud_filtered := PassThrough.filter none (fun p => p.z) z_min z_max []
  return (z_max, cloud_filtered)

/-- The cloud-side normal (lines 499-512): the negated, `mag`-normalised plane coefficients,
negated again when the top-down distance of `velodynepoint / 1000 + normal / 2` from the
sensor origin exceeds that of `velodynepoint / 1000`. -/
def velodyneNormal (env : Env) (a b c mag : ℚ) (velodynepoint : Vec3) : Vec3 :=
  let velodynenormal : Vec3 := ⟨-a / mag, -b / mag, -c / mag⟩
  let top_down_radius := env.sqrt ((velodynepoint.x / 1000) ^ 2 + (velodynepoint.y / 1000) ^ 2)
  let x_comp := velodynepoint.x / 1000 + velodynenormal.x / 2
  let y_comp := velodynepoint.y / 1000 + velodynenormal.y / 2
  let vector_dist := env.sqrt (x_comp ^ 2 + y_comp ^ 2)
  if vector_dist > top_down_radius then velodynenormal.neg else velodynenormal

/-- The sample assembly (lines 496-521) from the corner list, the plane coefficients
`a, b, c`, `mag`, and the image-side results. Reading `points[2]` is unchecked. -/
def assembleSample (env : Env) (a b c mag : ℚ) (basic_cloud : List Vec3)
    (corner_vectors : List Vec3) (chessboard_normal : Vec3) : Except Fault SampleData := do
  let b0 ← readAt Container.basic_cloud basic_cloud 0
  let b1 ← readAt Container.basic_cloud basic_cloud 1
  let velodynepoint : Vec3 :=
    ⟨(b0.x + b1.x) * 1000 / 2, (b0.y + b1.y) * 1000 / 2, (b0.z + b1.z) * 1000 / 2⟩
  let velodynenormal := velodyneNormal env a b c mag velodynepoint
  let camerapoint := corner_vectors.getD 4 (eyeColumn 4)
  let b2 ← readAt Container.basic_cloud basic_cloud 2
  return ⟨velodynepoint, velodynenormal, camerapoint, chessboard_normal, b2⟩

/-- The loop publishing the `corners_board` markers for the ids in `ids` (`0 .. 4` in the
source): ids below 4 read `points[i]` unchecked, id 4 is the scaled `velodynepoint`. -/
def cornerMarkers (basic_cloud : List Vec3) (centre : Vec3) :
    List ℕ → List Event × Option Fault
  | [] => ([], none)
  | i :: rest =>
    if i < 4 then
      match readAt Container.basic_cloud basic_cloud i with
      | Except.error f => ([], some f)
      | Except.ok p =>
        (Event.board_corners_3d i [p] :: (cornerMarkers basic_cloud centre rest).1,
         (cornerMarkers basic_cloud centre rest).2)
    else
      (Event.board_corners_3d i [centre] :: (cornerMarkers basic_cloud centre rest).1,
       (cornerMarkers basic_cloud centre rest).2)

/-- The `minmax` markers: min points with ids from 13, then max points. -/
def minmaxMarkers (min_points max_points : PointCloud) : List Event :=
  ((List.range min_points.length).map fun i =>
    Event.board_corners_3d (i + 13) [(deref min_points i).xyz]) ++
  ((List.range max_points.length).map fun i =>
    Event.board_corners_3d (min_points.length + 13 + i) [(deref max_points i).xyz])

/-- The points of `line_strip`: `points[1], points[3], points[0], points[2], points[1],
points[0]`, read unchecked. -/
def lineStripPoints (basic_cloud : List Vec3) : Except Fault (List Vec3) := do
  let a1 ← readAt Container.basic_cloud basic_cloud 1
  let a3 ← readAt Container.basic_cloud basic_cloud 3
  let a0 ← readAt Container.basic_cloud basic_cloud 0
  let a2 ← readAt Container.basic_cloud basic_cloud 2
  return [a1, a3, a0, a2, a1, a0]

/-- Everything after the line fits (lines 422-687): corner reconstruction, sample assembly,
markers, and the final `roi_publisher.publish(sample_data)`. The result is the effects so far
and the out-of-range read that ended the stage, if any. -/
def reconstructAndPublish (env : Env) (a b c mag : ℚ)
    (left_up left_dwn right_up right_dwn : Line) (min_points max_points : PointCloud)
    (inliers_right_dwn inliers_left_dwn : List ℕ) (corner_vectors : List Vec3)
    (chessboard_normal : Vec3) : List Event × Option Fault :=
  match cornerReconstruction left_up left_dwn right_up right_dwn min_points max_points
      inliers_right_dwn inliers_left_dwn with
  | Except.error f => ([], some f)
  | Except.ok basic_cloud =>
    match assembleSample env a b c mag basic_cloud corner_vectors chessboard_normal with
    | Except.error f => ([], some f)
    | Except.ok sample_data =>
      let centre := Vec3.smul (1 / 1000) sample_data.velodynepoint
      match cornerMarkers basic_cloud centre [0, 1, 2, 3, 4] with
      | (markers, some f) => (markers, some f)
      | (markers, none) =>
        match lineStripPoints basic_cloud with
        | Except.error f => (markers ++ minmaxMarkers min_points max_points, some f)
        | Except.ok strip =>
          (markers ++ minmaxMarkers min_points max_points ++
            [Event.board_corners_3d 10 strip,
             Event.visualization_marker 12
               [centre, centre.add (Vec3.smul (1 / 2) sample_data.velodynenormal)],
             Event.roi_points sample_data],
           none)

/-- The four line fits (lines 402-420) on `max_points`, its remainder, `min_points`, its
remainder, followed by `reconstructAndPublish`. All four coefficient vectors are read as
lines by the first two intersection calls. -/
def fitLinesAndPublish (env : Env) (a b c mag : ℚ) (min_points max_points : PointCloud)
    (corner_vectors : List Vec3) (chessboard_normal : Vec3) : List Event × Option Fault :=
  let fit_left_up := env.segmentLine 0 max_points
  let cloud_f := extractNegative max_points fit_left_up.1
  let fit_left_dwn := env.segmentLine 1 cloud_f
  let fit_right_up := env.segmentLine 2 min_points
  let cloud_f1 := extractNegative min_points fit_right_up.1
  let fit_right_dwn := env.segmentLine 3 cloud_f1
  match lineOfCoefficients fit_left_up.2, lineOfCoefficients fit_left_dwn.2,
      lineOfCoefficients fit_right_up.2, lineOfCoefficients fit_right_dwn.2 with
  | Except.ok left_up, Except.ok left_dwn, Except.ok right_up, Except.ok right_dwn =>
    reconstructAndPublish env a b c mag left_up left_dwn right_up right_dwn min_points
      max_points fit_right_dwn.1 fit_left_dwn.1 corner_vectors chessboard_normal
  | Except.error f, _, _, _ => ([], some f)
  | _, Except.error f, _, _ => ([], some f)
  | _, _, Except.error f, _ => ([], some f)
  | _, _, _, Except.error f => ([], some f)

/-- The cloud side of a capture (lines 279-687), after the chessboard was located. -/
def cloudFeatures (env : Env) (params : Params) (cloud_bounded : PointCloud)
    (corner_vectors : List Vec3) (chessboard_normal : Vec3) : List Event × Option Fault :=
  match heightBand params.diagonal cloud_bounded with
  | Except.error f => ([], some f)
  | Except.ok (_, cloud_filtered) =>
    match (env.segmentPlane cloud_filtered).2 with
    | a :: b :: c :: rest =>
      let mag := env.sqrt (a ^ 2 + b ^ 2 + c ^ 2)
      let cloud_projected := env.projectInliers (a :: b :: c :: rest) cloud_filtered
      match ringExtrema params.lidar_ring_count cloud_projected with
      | Except.error f => ([Event.velodyne_features cloud_filtered], some f)
      | Except.ok (max_points, min_points) =>
        (Event.velodyne_features cloud_filtered ::
          (fitLinesAndPublish env a b c mag min_points max_points corner_vectors
            chessboard_normal).1,
         (fitLinesAndPublish env a b c mag min_points max_points corner_vectors
            chessboard_normal).2)
    | _ => ([Event.log LogMsg.plane_segmentation_failed], none)

/-! ## `extractRegionOfInterest` and the node's event loop -/

/-- What one call of `extractRegionOfInterest` leaves behind: the flag, the effects in program
order, and the out-of-range read that ended it, if any. -/
structure CycleResult where
  flag : ℤ
  events : List Event
  fault : Option Fault
deriving DecidableEq

/-- The callback `FeatureExtractor::extractRegionOfInterest` on one image / cloud pair. -/
def extractRegionOfInterest (env : Env) (params : Params) (st : State) (image : Image)
    (pointcloud : PointCloud) : CycleResult :=
  let cloud_bounded := passthrough st.bounds_ pointcloud
  if st.flag = params.CAPTURE then
    match locateChessboard params image with
    | (logs, none) =>
      ⟨0, Event.expt_region cloud_bounded :: Event.log LogMsg.processing_sample :: logs, none⟩
    | (logs, some retval) =>
      ⟨0,
       (Event.expt_region cloud_bounded :: Event.log LogMsg.processing_sample :: logs) ++
         (cloudFeatures env params cloud_bounded retval.1 retval.2).1,
       (cloudFeatures env params cloud_bounded retval.1 retval.2).2⟩
  else ⟨st.flag, [Event.expt_region cloud_bounded], none⟩

/-- A callback invocation delivered by ROS. -/
inductive Input where
  | sample (operation : ℤ)
  | bounds (config : Bounds)
  | frame (image : Image) (pointcloud : PointCloud)

/-- One callback: the next state and the effects. A cycle ended by an out-of-range read has
undefined behaviour in the source; the model goes on from the flag the cycle had written
before the read. -/
def step (env : Env) (params : Params) (st : State) : Input → State × List Event
  | Input.sample operation => ((sampleCB params st operation).1, (sampleCB params st operation).2.1)
  | Input.bounds config => (boundsCB st config, [])
  | Input.frame image pointcloud =>
    ({ st with flag := (extractRegionOfInterest env params st image pointcloud).flag },
     (extractRegionOfInterest env params st image pointcloud).events)

/-- The effects of a sequence of callbacks, in order. -/
def run (env : Env) (params : Params) : State → List Input → List Event
  | _, [] => []
  | st, i :: rest => (step env params st i).2 ++ run env params (step env params st i).1 rest

/-- Number of pipeline runs in a trace: each logs "Processing sample" once, at its start. -/
def pipelineRuns (events : List Event) : ℕ :=
  events.count (Event.log LogMsg.processing_sample)

/-- Number of `CAPTURE` requests among the inputs. -/
def captureRequests (params : Params) (inputs : List Input) : ℕ :=
  (inputs.filter fun i =>
    match i with
    | Input.sample operation => decide (operation = params.CAPTURE)
    | _ => false).length

/-! ## Concrete inputs used by the evaluation theorems -/

/-- A 9x6 pattern of 25 mm squares on a 600 mm x 450 mm board (diagonal 0.75 m), a 16-ring
sensor, and service codes `CAPTURE = 1`, `DISCARD = 2`. -/
def boardParams : Params :=
  { chessboard_pattern_size_width := 9
    chessboard_pattern_size_height := 6
    square_length := 25
    board_dimensions_width := 600
    board_dimensions_height := 450
    cb_translation_error := ⟨0, 0, 0⟩
    lidar_ring_count := 16
    diagonal := 3 / 4
    CAPTURE := 1
    DISCARD := 2 }

/-- Largest natural number whose square is at most `n`. -/
def natSqrt (n : ℕ) : ℕ := ((List.range (n + 1)).filter fun k => decide (k * k ≤ n)).length - 1

/-- A square root that is exact on squares of rationals. -/
def sqrtOnSquares (q : ℚ) : ℚ := (natSqrt q.num.toNat : ℚ) / (natSqrt q.den : ℚ)

/-- Library results when every RANSAC fit finds no model: no inliers, no coefficients;
`sqrt` is exact on the squares it meets in the evaluations below. -/
def noModelEnv : Env :=
  { sqrt := sqrtOnSquares
    segmentPlane := fun _ => ([], [])
    projectInliers := fun _ cloud => cloud
    segmentLine := fun _ _ => ([], []) }

/-- The box `[0, 1]^3`. -/
def unitBounds : Bounds := ⟨0, 1, 0, 1, 0, 1⟩

/-- An image in which the pattern is found, posed 2 m in front of the camera. -/
def boardImage : Image :=
  { pattern_found := true
    tmprmat := ⟨⟨1, 0, 0⟩, ⟨0, 1, 0⟩, ⟨0, 0, 1⟩⟩
    tvec := ⟨0, 0, 2000⟩ }

/-- An image without pattern (all black). -/
def blackImage : Image := { boardImage with pattern_found := false }

/-- A cloud whose only point lies outside `unitBounds`. -/
def farCloud : PointCloud := [⟨5, 5, 5, 0, 0⟩]

/-- A cloud of two points inside `unitBounds`, at heights 0 and 1/2. -/
def twoLevelCloud : PointCloud := [⟨0, 0, 0, 0, 0⟩, ⟨0, 0, 1 / 2, 0, 1⟩]

/-- The square with corners `(5/2,7/2,0)`, `(7/2,7/2,0)`, `(7/2,9/2,0)`, `(5/2,9/2,0)` and
centre `(3,4,0)`: its edge on `x = 5/2`, leaving corner `(5/2,7/2,0)`. -/
def edgeWest : Line := ⟨⟨5 / 2, 7 / 2, 0⟩, ⟨0, 1, 0⟩⟩

/-- The edge of the square on `y = 7/2`, leaving corner `(5/2,7/2,0)`. -/
def edgeSouth : Line := ⟨⟨5 / 2, 7 / 2, 0⟩, ⟨1, 0, 0⟩⟩

/-- The edge of the square on `x = 7/2`, leaving corner `(7/2,9/2,0)`. -/
def edgeEast : Line := ⟨⟨7 / 2, 9 / 2, 0⟩, ⟨0, -1, 0⟩⟩

/-- The edge of the square on `y = 9/2`, leaving corner `(7/2,9/2,0)`. -/
def edgeNorth : Line := ⟨⟨7 / 2, 9 / 2, 0⟩, ⟨-1, 0, 0⟩⟩

/-- A line parallel to `edgeWest`, half a metre from it. -/
def lineMidWest : Line := ⟨⟨3, 7 / 2, 0⟩, ⟨0, 1, 0⟩⟩

/-- A line through the corner `(7/2,9/2,0)` with unit direction `(3/5, -4/5, 0)`; it meets
`y = 7/2` at `(17/4, 7/2, 0)` and `x = 5/2` at `(5/2, 35/6, 0)`. -/
def slantEdge : Line := ⟨⟨7 / 2, 9 / 2, 0⟩, ⟨3 / 5, -4 / 5, 0⟩⟩

/-- Midpoint of the south edge. -/
def midSouth : PointCloud := [⟨3, 7 / 2, 0, 0, 0⟩]

/-- Midpoint of the west edge. -/
def midWest : PointCloud := [⟨5 / 2, 4, 0, 0, 0⟩]

/-- Midpoint of the east edge. -/
def midEast : PointCloud := [⟨7 / 2, 4, 0, 0, 0⟩]

/-- Midpoint of the north edge. -/
def midNorth : PointCloud := [⟨3, 9 / 2, 0, 0, 0⟩]

/-- The four corners of the square, in the order the reconstruction lists them when it
succeeds from `edgeWest`, `edgeSouth`: first corner, opposite corner, then the other two. -/
def squareCorners : List Vec3 :=
  [⟨5 / 2, 7 / 2, 0⟩, ⟨7 / 2, 9 / 2, 0⟩, ⟨7 / 2, 7 / 2, 0⟩, ⟨5 / 2, 9 / 2, 0⟩]

deriving instance DecidableEq for Except

/-- The first corner of the square, where `edgeWest` and `edgeSouth` meet. -/
def cornerSW : Vec3 := ⟨5 / 2, 7 / 2, 0⟩

/-- The opposite corner of the square, where `edgeNorth` and `edgeEast` meet. -/
def cornerNE : Vec3 := ⟨7 / 2, 9 / 2, 0⟩

/-- A point of `slantEdge`. -/
def onSlant : PointCloud := [⟨31 / 8, 4, 0, 0, 0⟩]

/-- One `CAPTURE` request followed by two input pairs, a `DISCARD` request and a third pair. -/
def triggerThenFrames : List Input :=
  [Input.sample 1, Input.frame boardImage twoLevelCloud, Input.frame boardImage twoLevelCloud,
   Input.sample 2, Input.frame blackImage farCloud]

/-! ## Side-test points (`extractRegionOfInterest`, lines 449-454) -/

/-- The expression `points->points[inliers->indices[0]]`: both reads are unchecked. Lines 449-451
read `min_points` with `inliers_right_dwn`, lines 452-454 `max_points` with
`inliers_left_dwn`. -/
def sideTestPoint (c_points c_inliers : Container) (points : PointCloud) (inliers : List ℕ) :
    Except Fault PointXYZIR := do
  let i ← readAt c_inliers inliers 0
  readAt c_points points i

/-- A min set in ring order: two points of the east edge of the square, then two points of its
north edge. -/
def minFour : PointCloud :=
  [⟨7 / 2, 15 / 4, 0, 0, 0⟩, ⟨7 / 2, 17 / 4, 0, 0, 1⟩, ⟨13 / 4, 9 / 2, 0, 0, 2⟩,
   ⟨11 / 4, 9 / 2, 0, 0, 3⟩]

/-- A max set in ring order: two points of the west edge of the square, then two points of its
south edge. -/
def maxFour : PointCloud :=
  [⟨5 / 2, 15 / 4, 0, 0, 0⟩, ⟨5 / 2, 17 / 4, 0, 0, 1⟩, ⟨11 / 4, 7 / 2, 0, 0, 2⟩,
   ⟨13 / 4, 7 / 2, 0, 0, 3⟩]

/-- The six coefficient values of a line. -/
def Line.values (l : Line) : List ℚ :=
  [l.point.x, l.point.y, l.point.z, l.direction.x, l.direction.y, l.direction.z]

/-- Library results in which every line fit returns the edge through the first two points of
its input cloud, with inlier indices 0 and 1: west and south edge for the max set and its
remainder, east and north edge for the min set and its remainder. -/
def squareFitEnv : Env :=
  { sqrt := sqrtOnSquares
    segmentPlane := fun _ => ([], [])
    projectInliers := fun _ cloud => cloud
    segmentLine := fun call _ =>
      if call = 0 then ([0, 1], edgeWest.values)
      else if call = 1 then ([0, 1], edgeSouth.values)
      else if call = 2 then ([0, 1], edgeEast.values)
      else ([0, 1], edgeNorth.values) }

/-! ## Centroid and rigid transform (reference values for the image-side points) -/

/-- Sum of a list of vectors. -/
def Vec3.sum (l : List Vec3) : Vec3 :=
  ⟨(l.map fun p => p.x).sum, (l.map fun p => p.y).sum, (l.map fun p => p.z).sum⟩

/-- Mean of a list of vectors. -/
def centroid (l : List Vec3) : Vec3 := Vec3.smul (1 / (l.length : ℚ)) (Vec3.sum l)

/-- The product `R * p` of a 3x3 matrix and a vector. -/
def Mat3.mulVec (r : Mat3) (p : Vec3) : Vec3 := ⟨r.row0.dot p, r.row1.dot p, r.row2.dot p⟩

/-- The camera-frame image `R * p + t` of a target-local point. -/
def poseTransform (r : Mat3) (t : Vec3) (p : Vec3) : Vec3 := (r.mulVec p).add t

/-- The parameters `boardParams` with a pattern-to-board offset of 10 mm along the board
normal. -/
def offsetParams : Params := { boardParams with cb_translation_error := ⟨0, 0, 10⟩ }

/-! ## Reference quantities for the cloud-side normal -/

/-- The number `s` is the non-negative square root of `r`. -/
def IsSqrt (s r : ℚ) : Prop := 0 ≤ s ∧ s * s = r

instance (s r : ℚ) : Decidable (IsSqrt s r) := by
  unfold IsSqrt; infer_instance

/-- Squared distance from the sensor origin in the top-down (x, y) view. -/
def topDownSq (v : Vec3) : ℚ := v.x ^ 2 + v.y ^ 2

/-- Dot product of the horizontal (x, y) parts. -/
def horizontalDot (u v : Vec3) : ℚ := u.x * v.x + u.y * v.y

/-- Midpoint of two corners: the cloud-side centroid in metres. -/
def midpoint (p q : Vec3) : Vec3 := Vec3.smul (1 / 2) (p.add q)

/-- Three corners in the plane `3x + 4y + 25 = 0`; the first two have midpoint `(-3, -4, 0)`,
5 m from the sensor in the top-down view. -/
def farSideCorners : List Vec3 :=
  [⟨-17 / 5, -37 / 10, 0⟩, ⟨-13 / 5, -43 / 10, 0⟩, ⟨-3, -4, 1 / 2⟩]

/-! ## The cloud-side normal over an ordered field with square roots -/

/-- The function `sqrt` returns the non-negative square root of every non-negative number of
the ordered field `K`, as `std::sqrt` does on the reals. No function on `ℚ` does. -/
def SqrtOn {K : Type} [LinearOrderedField K] (sqrt : K → K) : Prop :=
  ∀ r : K, 0 ≤ r → 0 ≤ sqrt r ∧ sqrt r * sqrt r = r

/-- Lines 316-318 over an ordered field `K`:
`mag = sqrt(pow(a, 2) + pow(b, 2) + pow(c, 2))`. -/
def magIn {K : Type} [LinearOrderedField K] (sqrt : K → K) (a b c : K) : K :=
  sqrt (a ^ 2 + b ^ 2 + c ^ 2)

/-- Lines 499-512 over an ordered field `K` with `sqrt` for `std::sqrt`: the computation of
`velodyneNormal`, with `px`, `py` for `velodynepoint[0]`, `velodynepoint[1]` (the third
coordinate is not read) and the result as the triple of its coordinates. -/
def velodyneNormalIn {K : Type} [LinearOrderedField K] (sqrt : K → K) (a b c mag px py : K) :
    K × K × K :=
  let velodynenormal : K × K × K := (-a / mag, -b / mag, -c / mag)
  let top_down_radius := sqrt ((px / 1000) ^ 2 + (py / 1000) ^ 2)
  let x_comp := px / 1000 + velodynenormal.1 / 2
  let y_comp := py / 1000 + velodynenormal.2.1 / 2
  let vector_dist := sqrt (x_comp ^ 2 + y_comp ^ 2)
  if vector_dist > top_down_radius then
    (-velodynenormal.1, -velodynenormal.2.1, -velodynenormal.2.2)
  else velodynenormal

/-- The vector `n0 = -(a, b, c) / mag` over an ordered field. -/
def planeNormalIn {K : Type} [LinearOrderedField K] (a b c mag : K) : K × K × K :=
  (-a / mag, -b / mag, -c / mag)

/-- Distance of the point `(x, y)` from the sensor origin in the top-down view. -/
def topDownDist {K : Type} [LinearOrderedField K] (sqrt : K → K) (x y : K) : K :=
  sqrt (x ^ 2 + y ^ 2)

/-- Euclidean norm of a vector given by its coordinates. -/
def euclideanNorm {K : Type} [LinearOrderedField K] (sqrt : K → K) (v : K × K × K) : K :=
  sqrt (v.1 ^ 2 + v.2.1 ^ 2 + v.2.2 ^ 2)

/-- The vector with the coordinates of a triple. -/
def Vec3.ofTriple (t : ℚ × ℚ × ℚ) : Vec3 := ⟨t.1, t.2.1, t.2.2⟩

/-! ## An upright board in a plane through the sensor origin -/

/-- The upright square in the plane `y = 0` with corners `(1/6,0,1/2)`, `(7/6,0,1/2)`,
`(7/6,0,3/2)`, `(1/6,0,3/2)` and centre `(2/3,0,1)`: its edge on `x = 1/6`, leaving corner
`(1/6,0,1/2)`. -/
def uprightWest : Line := ⟨⟨1 / 6, 0, 1 / 2⟩, ⟨0, 0, 1⟩⟩

/-- The edge of the upright square on `z = 1/2`, leaving corner `(1/6,0,1/2)`. -/
def uprightBottom : Line := ⟨⟨1 / 6, 0, 1 / 2⟩, ⟨1, 0, 0⟩⟩

/-- The edge of the upright square on `z = 3/2`, leaving corner `(7/6,0,3/2)`. -/
def uprightTop : Line := ⟨⟨7 / 6, 0, 3 / 2⟩, ⟨-1, 0, 0⟩⟩

/-- The edge of the upright square on `x = 7/6`, leaving corner `(7/6,0,3/2)`. -/
def uprightEast : Line := ⟨⟨7 / 6, 0, 3 / 2⟩, ⟨0, 0, -1⟩⟩

/-- Midpoint of the edge on `x = 7/6`. -/
def uprightMidEast : PointCloud := [⟨7 / 6, 0, 1, 0, 0⟩]

/-- Midpoint of the edge on `x = 1/6`. -/
def uprightMidWest : PointCloud := [⟨1 / 6, 0, 1, 0, 0⟩]

/-! ## Theorems -/

/-! ### C1: spatial filter -/

/-- C1: for all bounds (in particular those with `x_min ≤ x_max`, `y_min ≤ y_max`,
`z_min ≤ z_max`) the output of `passthrough` is a sub-sequence of the input, it is the input
filtered by the single conjunctive closed-box predicate, and an input point is retained iff
it lies in the box. -/
theorem passthrough_eq_box (b : Bounds) (input : PointCloud) :
    List.Sublist (passthrough b input) input ∧
    passthrough b input = input.filter (fun p => decide (inBox b p)) ∧
    ∀ p ∈ input, (p ∈ passthrough b input ↔ inBox b p) := by
  have key : passthrough b input = input.filter (fun p => decide (inBox b p)) := by
    simp only [passthrough, PassThrough.filter, List.filter_filter]
    apply List.filter_congr
    intro p _
    simp only [inBox, not_or, not_lt, gt_iff_lt, Bool.and_eq_true, decide_eq_true_eq,
      Bool.decide_and, Bool.decide_eq_true]
    by_cases h1 : b.x_min ≤ p.x <;> by_cases h2 : p.x ≤ b.x_max <;>
      by_cases h3 : b.y_min ≤ p.y <;> by_cases h4 : p.y ≤ b.y_max <;>
      by_cases h5 : b.z_min ≤ p.z <;> by_cases h6 : p.z ≤ b.z_max <;> simp [*]
  refine ⟨?_, key, ?_⟩
  · rw [key]; exact List.filter_sublist input
  · intro p hp
    rw [key]
    simp [List.mem_filter, hp]

/-! ### C2: ring extrema -/

theorem length_swapPoints (c : PointCloud) (a b : ℕ) : (swapPoints c a b).length = c.length := by
  simp [swapPoints]

theorem deref_swapPoints (c : PointCloud) (a b i : ℕ) (ha : a < c.length) (hb : b < c.length) :
    deref (swapPoints c a b) i =
      if i = a then deref c b else if i = b then deref c a else deref c i := by
  unfold swapPoints deref
  simp only [List.getD_eq_getElem?_getD, List.getElem?_set, List.length_set]
  by_cases h1 : a = i
  · subst h1; simp [ha]
  · by_cases h2 : b = i
    · subst h2; simp [h1, hb, Ne.symm h1]
    · simp [h1, h2, Ne.symm h1, Ne.symm h2]

theorem getD_mem_seg (seg : List ℕ) (a : ℕ) (ha : a < seg.length) : seg.getD a 0 ∈ seg := by
  rw [List.getD_eq_getElem seg 0 ha]
  exact List.getElem_mem ha

theorem getD_inj_seg (seg : List ℕ) (hnd : seg.Nodup) (a b : ℕ) (ha : a < seg.length)
    (hb : b < seg.length) (h : seg.getD a 0 = seg.getD b 0) : a = b := by
  rw [List.getD_eq_getElem seg 0 ha, List.getD_eq_getElem seg 0 hb] at h
  exact (List.Nodup.getElem_inj_iff hnd).1 h

theorem Rearranged.refl (seg : List ℕ) (c : PointCloud) : Rearranged seg c c :=
  ⟨rfl, fun _ _ => rfl, fun i hi => ⟨i, hi, rfl⟩, fun j hj => ⟨j, hj, rfl⟩⟩

theorem Rearranged.trans {seg : List ℕ} {c c' c'' : PointCloud} (h1 : Rearranged seg c c')
    (h2 : Rearranged seg c' c'') : Rearranged seg c c'' := by
  obtain ⟨l1, o1, f1, b1⟩ := h1
  obtain ⟨l2, o2, f2, b2⟩ := h2
  refine ⟨l2.trans l1, fun i hi => (o2 i hi).trans (o1 i hi), ?_, ?_⟩
  · intro i hi
    obtain ⟨j, hj, e⟩ := f2 i hi
    obtain ⟨k, hk, e'⟩ := f1 j hj
    exact ⟨k, hk, e.trans e'⟩
  · intro j hj
    obtain ⟨i, hi, e⟩ := b1 j hj
    obtain ⟨k, hk, e'⟩ := b2 i hi
    exact ⟨k, hk, e'.trans e⟩

/-- One compare-and-swap of the bucket positions `j < k`. -/
theorem sortStep_spec (seg : List ℕ) (c : PointCloud) (j k : ℕ) (hnd : seg.Nodup)
    (hv : ∀ i ∈ seg, i < c.length) (hjk : j < k) (hk : k < seg.length) :
    Rearranged seg c (sortStep seg j c k) ∧
    (∀ m, m < seg.length → m ≠ j → m ≠ k →
      segVal seg (sortStep seg j c k) m = segVal seg c m) ∧
    ((segVal seg (sortStep seg j c k) j = segVal seg c j ∧
        segVal seg (sortStep seg j c k) k = segVal seg c k ∧
        (segVal seg c k).y ≤ (segVal seg c j).y) ∨
     (segVal seg (sortStep seg j c k) j = segVal seg c k ∧
        segVal seg (sortStep seg j c k) k = segVal seg c j ∧
        (segVal seg c j).y < (segVal seg c k).y)) := by
  have hj : j < seg.length := lt_trans hjk hk
  have hmj := getD_mem_seg seg j hj
  have hmk := getD_mem_seg seg k hk
  have hne : seg.getD j 0 ≠ seg.getD k 0 := fun h =>
    (Nat.ne_of_lt hjk) (getD_inj_seg seg hnd j k hj hk h)
  unfold sortStep
  split_ifs with hlt
  · have hd := fun i => deref_swapPoints c (seg.getD j 0) (seg.getD k 0) i (hv _ hmj) (hv _ hmk)
    refine ⟨⟨length_swapPoints _ _ _, ?_, ?_, ?_⟩, ?_, Or.inr ⟨?_, ?_, hlt⟩⟩
    · intro i hi
      have h1 : i ≠ seg.getD j 0 := fun h => hi (h ▸ hmj)
      have h2 : i ≠ seg.getD k 0 := fun h => hi (h ▸ hmk)
      rw [hd i, if_neg h1, if_neg h2]
    · intro i hi
      rw [hd i]
      split_ifs with h1 h2
      · exact ⟨_, hmk, rfl⟩
      · exact ⟨_, hmj, rfl⟩
      · exact ⟨i, hi, rfl⟩
    · intro i hi
      by_cases h1 : i = seg.getD j 0
      · refine ⟨seg.getD k 0, hmk, ?_⟩
        rw [hd, if_neg (Ne.symm hne), if_pos rfl, h1]
      · by_cases h2 : i = seg.getD k 0
        · refine ⟨seg.getD j 0, hmj, ?_⟩
          rw [hd, if_pos rfl, h2]
        · refine ⟨i, hi, ?_⟩
          rw [hd, if_neg h1, if_neg h2]
    · intro m hm hmj' hmk'
      unfold segVal
      rw [hd, if_neg (fun h => hmj' (getD_inj_seg seg hnd m j hm hj h)),
        if_neg (fun h => hmk' (getD_inj_seg seg hnd m k hm hk h))]
    · unfold segVal; rw [hd, if_pos rfl]
    · unfold segVal; rw [hd, if_neg (Ne.symm hne), if_pos rfl]
  · exact ⟨Rearranged.refl _ _, fun _ _ _ _ => rfl, Or.inl ⟨rfl, rfl, not_lt.1 hlt⟩⟩

theorem Rearranged.valid {seg : List ℕ} {c c' : PointCloud} (h : Rearranged seg c c')
    (hv : ∀ i ∈ seg, i < c.length) : ∀ i ∈ seg, i < c'.length := by
  intro i hi
  rw [h.1]
  exact hv i hi

/-- The inner loop from position `K` on, `count` iterations left. -/
theorem sortInner_aux (seg : List ℕ) (j : ℕ) (hnd : seg.Nodup) :
    ∀ (count K : ℕ) (c : PointCloud), j < K → K + count = seg.length →
      (∀ i ∈ seg, i < c.length) → DescUpTo seg c j →
      (∀ m, j < m → m < K → (segVal seg c m).y ≤ (segVal seg c j).y) →
      Rearranged seg c ((List.range' K count).foldl (sortStep seg j) c) ∧
      DescUpTo seg ((List.range' K count).foldl (sortStep seg j) c) j ∧
      (∀ m, j < m → m < seg.length →
        (segVal seg ((List.range' K count).foldl (sortStep seg j) c) m).y ≤
          (segVal seg ((List.range' K count).foldl (sortStep seg j) c) j).y) := by
  intro count
  induction count with
  | zero =>
    intro K c _ hK _ hdesc hin
    simp only [List.range'_zero, List.foldl_nil]
    refine ⟨Rearranged.refl _ _, hdesc, ?_⟩
    intro m hjm hm
    exact hin m hjm (by omega)
  | succ count ih =>
    intro K c hjK hK hv hdesc hin
    have hKn : K < seg.length := by omega
    have hjn : j < seg.length := by omega
    obtain ⟨hre, hsame, hcase⟩ := sortStep_spec seg c j K hnd hv hjK hKn
    have hdesc' : DescUpTo seg (sortStep seg j c K) j := by
      intro a b haj hab hb
      have hea : segVal seg (sortStep seg j c K) a = segVal seg c a :=
        hsame a (by omega) (by omega) (by omega)
      rw [hea]
      by_cases hbj : b = j
      · subst hbj
        rcases hcase with ⟨e, _, _⟩ | ⟨e, _, _⟩
        · rw [e]; exact hdesc a b haj hab hb
        · rw [e]; exact hdesc a K haj (by omega) hKn
      · by_cases hbK : b = K
        · subst hbK
          rcases hcase with ⟨_, e, _⟩ | ⟨_, e, _⟩
          · rw [e]; exact hdesc a b haj hab hb
          · rw [e]; exact hdesc a j haj haj hjn
        · rw [hsame b hb hbj hbK]; exact hdesc a b haj hab hb
    have hin' : ∀ m, j < m → m < K + 1 →
        (segVal seg (sortStep seg j c K) m).y ≤ (segVal seg (sortStep seg j c K) j).y := by
      intro m hjm hm
      by_cases hmK : m = K
      · subst hmK
        rcases hcase with ⟨e1, e2, hle⟩ | ⟨e1, e2, hlt⟩
        · rw [e1, e2]; exact hle
        · rw [e1, e2]; exact le_of_lt hlt
      · have hmK' : m < K := by omega
        rw [hsame m (by omega) (by omega) hmK]
        rcases hcase with ⟨e1, _, _⟩ | ⟨e1, _, hlt⟩
        · rw [e1]; exact hin m hjm hmK'
        · rw [e1]; exact le_trans (hin m hjm hmK') (le_of_lt hlt)
    obtain ⟨r1, r2, r3⟩ := ih (K + 1) (sortStep seg j c K) (by omega) (by omega)
      (hre.valid hv) hdesc' hin'
    exact ⟨hre.trans r1, r2, r3⟩

theorem sortInner_spec (seg : List ℕ) (j : ℕ) (c : PointCloud) (hnd : seg.Nodup)
    (hj : j < seg.length) (hv : ∀ i ∈ seg, i < c.length) (hdesc : DescUpTo seg c j) :
    Rearranged seg c (sortInner seg j c) ∧ DescUpTo seg (sortInner seg j c) (j + 1) := by
  obtain ⟨r1, r2, r3⟩ := sortInner_aux seg j hnd (seg.length - (j + 1)) (j + 1) c (by omega)
    (by omega) hv hdesc (fun m h1 h2 => by omega)
  refine ⟨r1, ?_⟩
  intro a b ha hab hb
  by_cases haj : a = j
  · subst haj; exact r3 b hab hb
  · exact r2 a b (by omega) hab hb

/-- The outer loop after its first `J` iterations. -/
theorem sortOuter_spec (seg : List ℕ) (hnd : seg.Nodup) (c : PointCloud)
    (hv : ∀ i ∈ seg, i < c.length) :
    ∀ J, J ≤ seg.length →
      Rearranged seg c ((List.range J).foldl (fun c j => sortInner seg j c) c) ∧
      DescUpTo seg ((List.range J).foldl (fun c j => sortInner seg j c) c) J := by
  intro J
  induction J with
  | zero =>
    intro _
    exact ⟨Rearranged.refl _ _, fun a b ha _ _ => absurd ha (Nat.not_lt_zero a)⟩
  | succ J ih =>
    intro hJ
    obtain ⟨r1, r2⟩ := ih (by omega)
    rw [List.range_succ, List.foldl_append]
    simp only [List.foldl_cons, List.foldl_nil]
    obtain ⟨s1, s2⟩ := sortInner_spec seg J _ hnd (by omega) (r1.valid hv) r2
    exact ⟨r1.trans s1, s2⟩

theorem sortSegment_spec (seg : List ℕ) (hnd : seg.Nodup) (c : PointCloud)
    (hv : ∀ i ∈ seg, i < c.length) :
    Rearranged seg c (sortSegment seg c) ∧ DescUpTo seg (sortSegment seg c) seg.length :=
  sortOuter_spec seg hnd c hv seg.length (le_refl _)

theorem sortSegments_spec :
    ∀ (segs : List (List ℕ)) (c : PointCloud), (∀ s ∈ segs, s.Nodup) →
      segs.Pairwise List.Disjoint → (∀ s ∈ segs, ∀ i ∈ s, i < c.length) →
      (sortSegments segs c).length = c.length ∧
      (∀ i, (∀ s ∈ segs, i ∉ s) → deref (sortSegments segs c) i = deref c i) ∧
      ∀ s ∈ segs, SameContent s c (sortSegments segs c) ∧
        DescUpTo s (sortSegments segs c) s.length := by
  intro segs
  induction segs with
  | nil =>
    intro c _ _ _
    exact ⟨rfl, fun _ _ => rfl, fun s hs => absurd hs (List.not_mem_nil s)⟩
  | cons s ss ih =>
    intro c hnd hpw hv
    have hstep : ∃ c1, sortSegments (s :: ss) c = sortSegments ss c1 ∧ Rearranged s c c1 ∧
        DescUpTo s c1 s.length := by
      by_cases h0 : s.length = 0
      · refine ⟨c, ?_, Rearranged.refl _ _, ?_⟩
        · simp only [sortSegments, List.foldl_cons, if_pos h0]
        · intro a b _ hab hb; omega
      · refine ⟨sortSegment s c, ?_, ?_⟩
        · simp only [sortSegments, List.foldl_cons, if_neg h0]
        · exact sortSegment_spec s (hnd s (List.mem_cons_self s ss)) c
            (hv s (List.mem_cons_self s ss))
    obtain ⟨c1, hc1, hre, hdesc⟩ := hstep
    rw [hc1]
    have hdisj : ∀ t ∈ ss, List.Disjoint s t := (List.pairwise_cons.1 hpw).1
    have hv1 : ∀ t ∈ ss, ∀ i ∈ t, i < c1.length := by
      intro t ht i hi
      rw [hre.1]
      exact hv t (List.mem_cons_of_mem s ht) i hi
    obtain ⟨l1, o1, r1⟩ := ih c1 (fun t ht => hnd t (List.mem_cons_of_mem s ht))
      (List.pairwise_cons.1 hpw).2 hv1
    have hkeep : ∀ i ∈ s, deref (sortSegments ss c1) i = deref c1 i := by
      intro i hi
      exact o1 i (fun t ht hit => hdisj t ht hi hit)
    refine ⟨l1.trans hre.1, ?_, ?_⟩
    · intro i hi
      rw [o1 i (fun t ht => hi t (List.mem_cons_of_mem s ht))]
      exact hre.2.1 i (hi s (List.mem_cons_self s ss))
    · intro t ht
      rcases List.mem_cons.1 ht with rfl | ht'
      · refine ⟨⟨?_, ?_⟩, ?_⟩
        · intro i hi
          obtain ⟨j, hj, e⟩ := hre.2.2.1 i hi
          exact ⟨j, hj, (hkeep i hi).trans e⟩
        · intro j hj
          obtain ⟨i, hi, e⟩ := hre.2.2.2 j hj
          exact ⟨i, hi, (hkeep i hi).trans e⟩
        · intro a b ha hab hb
          have ea : segVal t (sortSegments ss c1) a = segVal t c1 a :=
            hkeep _ (getD_mem_seg t a (by omega))
          have eb : segVal t (sortSegments ss c1) b = segVal t c1 b :=
            hkeep _ (getD_mem_seg t b hb)
          rw [ea, eb]
          exact hdesc a b ha hab hb
      · obtain ⟨⟨f, b⟩, d⟩ := r1 t ht'
        have hsame : ∀ i ∈ t, deref c1 i = deref c i := fun i hi =>
          hre.2.1 i (fun his => hdisj t ht' his hi)
        refine ⟨⟨?_, ?_⟩, d⟩
        · intro i hi
          obtain ⟨j, hj, e⟩ := f i hi
          exact ⟨j, hj, e.trans (hsame j hj)⟩
        · intro j hj
          obtain ⟨i, hi, e⟩ := b j hj
          exact ⟨i, hi, e.trans (hsame j hj)⟩

theorem mem_ringIndices (r : ℕ) :
    ∀ (l : List PointXYZIR) (i k : ℕ),
      k ∈ ringIndices r l i ↔ i ≤ k ∧ k < i + l.length ∧ (deref l (k - i)).ring = r := by
  intro l
  induction l with
  | nil =>
    intro i k
    simp only [ringIndices, List.not_mem_nil, List.length_nil, false_iff]
    omega
  | cons p rest ih =>
    intro i k
    have hcons : ∀ m, deref (p :: rest) (m + 1) = deref rest m := fun m => by
      simp [deref]
    have hrest : k ∈ ringIndices r rest (i + 1) ↔
        i + 1 ≤ k ∧ k < i + (p :: rest).length ∧ (deref (p :: rest) (k - i)).ring = r := by
      rw [ih (i + 1) k]
      constructor
      · rintro ⟨h1, h2, h3⟩
        refine ⟨h1, by simp only [List.length_cons]; omega, ?_⟩
        have : k - i = (k - (i + 1)) + 1 := by omega
        rw [this, hcons]; exact h3
      · rintro ⟨h1, h2, h3⟩
        refine ⟨h1, by simp only [List.length_cons] at h2; omega, ?_⟩
        have : k - i = (k - (i + 1)) + 1 := by omega
        rw [this, hcons] at h3; exact h3
    have hhead : deref (p :: rest) 0 = p := by simp [deref]
    unfold ringIndices
    split_ifs with hp
    · rw [List.mem_cons, hrest]
      constructor
      · rintro (rfl | ⟨h1, h2, h3⟩)
        · refine ⟨le_refl _, by simp, ?_⟩
          rw [Nat.sub_self, hhead]; exact hp
        · exact ⟨by omega, h2, h3⟩
      · rintro ⟨h1, h2, h3⟩
        by_cases hk : k = i
        · exact Or.inl hk
        · exact Or.inr ⟨by omega, h2, h3⟩
    · rw [hrest]
      constructor
      · rintro ⟨h1, h2, h3⟩
        exact ⟨by omega, h2, h3⟩
      · rintro ⟨h1, h2, h3⟩
        refine ⟨?_, h2, h3⟩
        by_contra hlt
        have hk : k = i := by omega
        subst hk
        rw [Nat.sub_self, hhead] at h3
        exact hp h3

theorem nodup_ringIndices (r : ℕ) :
    ∀ (l : List PointXYZIR) (i : ℕ), (ringIndices r l i).Nodup := by
  intro l
  induction l with
  | nil => intro i; simp [ringIndices]
  | cons p rest ih =>
    intro i
    unfold ringIndices
    split_ifs with hp
    · refine List.nodup_cons.2 ⟨?_, ih (i + 1)⟩
      intro hmem
      have := ((mem_ringIndices r rest (i + 1) i).1 hmem).1
      omega
    · exact ih (i + 1)

theorem bucketLoop_spec :
    ∀ (l : List PointXYZIR) (i : ℕ) (segs : List (List ℕ)),
      (∀ p ∈ l, p.ring < segs.length) →
      ∃ segs', bucketLoop l i segs = Except.ok segs' ∧ segs'.length = segs.length ∧
        ∀ r, r < segs.length → segs'.getD r [] = segs.getD r [] ++ ringIndices r l i := by
  intro l
  induction l with
  | nil =>
    intro i segs _
    exact ⟨segs, rfl, rfl, fun r _ => by simp [ringIndices]⟩
  | cons p rest ih =>
    intro i segs h
    have hp : p.ring < segs.length := h p (List.mem_cons_self p rest)
    obtain ⟨segs', e, hl, hr⟩ := ih (i + 1) (segs.set p.ring (segs.getD p.ring [] ++ [i]))
      (fun q hq => by rw [List.length_set]; exact h q (List.mem_cons_of_mem p hq))
    refine ⟨segs', ?_, ?_, ?_⟩
    · simp only [bucketLoop, if_pos hp]; exact e
    · rw [hl, List.length_set]
    · intro r hrl
      rw [hr r (by rw [List.length_set]; exact hrl)]
      by_cases hpr : p.ring = r
      · subst hpr
        simp [ringIndices, List.getD_eq_getElem?_getD, List.getElem?_set, hp]
      · simp [ringIndices, List.getD_eq_getElem?_getD, List.getElem?_set, hpr]

theorem bucketByRing_spec (n : ℕ) (cloud : PointCloud) (h : ∀ p ∈ cloud, p.ring < n) :
    bucketByRing n cloud = Except.ok ((List.range n).map (fun r => ringIndices r cloud 0)) := by
  obtain ⟨segs', e, hl, hr⟩ := bucketLoop_spec cloud 0 (List.replicate n [])
    (fun p hp => by rw [List.length_replicate]; exact h p hp)
  rw [List.length_replicate] at hl hr
  unfold bucketByRing
  rw [e]
  congr 1
  apply List.ext_getElem
  · simp [hl]
  · intro r h1 h2
    have hrn : r < n := by rw [hl] at h1; exact h1
    have := hr r hrn
    rw [List.getD_eq_getElem segs' [] h1] at this
    rw [this]
    simp [List.getD_eq_getElem?_getD, List.getElem?_replicate, hrn]

theorem collectExtrema_aux (c : PointCloud) :
    ∀ (segs : List (List ℕ)) (acc : PointCloud × PointCloud),
      segs.foldl
        (fun acc seg =>
          if seg.length = 0 then acc
          else (acc.1 ++ [deref c (seg.getD 0 0)],
                acc.2 ++ [deref c (seg.getD (seg.length - 1) 0)])) acc =
      (acc.1 ++ (segs.filter (fun s => decide (s.length ≠ 0))).map
          (fun s => deref c (s.getD 0 0)),
       acc.2 ++ (segs.filter (fun s => decide (s.length ≠ 0))).map
          (fun s => deref c (s.getD (s.length - 1) 0))) := by
  intro segs
  induction segs with
  | nil => intro acc; simp
  | cons s ss ih =>
    intro acc
    rw [List.foldl_cons, ih]
    by_cases h0 : s.length = 0
    · have hs : s = [] := List.length_eq_zero.1 h0
      simp [hs, List.filter_cons]
    · have hs : s ≠ [] := fun hs => h0 (List.length_eq_zero.2 hs)
      simp [h0, hs, List.filter_cons]

theorem collectExtrema_eq (segs : List (List ℕ)) (c : PointCloud) :
    collectExtrema segs c =
      ((segs.filter (fun s => decide (s.length ≠ 0))).map (fun s => deref c (s.getD 0 0)),
       (segs.filter (fun s => decide (s.length ≠ 0))).map
          (fun s => deref c (s.getD (s.length - 1) 0))) := by
  unfold collectExtrema
  rw [collectExtrema_aux]
  simp

theorem mem_ringIndices_zero (r k : ℕ) (cloud : PointCloud) :
    k ∈ ringIndices r cloud 0 ↔ k < cloud.length ∧ (deref cloud k).ring = r := by
  rw [mem_ringIndices]
  simp

theorem deref_mem (cloud : PointCloud) (j : ℕ) (hj : j < cloud.length) :
    deref cloud j ∈ cloud := by
  unfold deref
  rw [List.getD_eq_getElem cloud _ hj]
  exact List.getElem_mem hj

theorem exists_deref_of_mem (cloud : PointCloud) (p : PointXYZIR) (hp : p ∈ cloud) :
    ∃ j, j < cloud.length ∧ deref cloud j = p := by
  obtain ⟨j, hj, e⟩ := List.getElem_of_mem hp
  refine ⟨j, hj, ?_⟩
  unfold deref
  rw [List.getD_eq_getElem cloud _ hj]
  exact e

theorem exists_pos_of_mem_seg (seg : List ℕ) (i : ℕ) (hi : i ∈ seg) :
    ∃ a, a < seg.length ∧ seg.getD a 0 = i := by
  obtain ⟨a, ha, e⟩ := List.getElem_of_mem hi
  refine ⟨a, ha, ?_⟩
  rw [List.getD_eq_getElem seg _ ha]
  exact e

theorem ringBuckets_nodup (n : ℕ) (cloud : PointCloud) :
    ∀ s ∈ (List.range n).map (fun r => ringIndices r cloud 0), s.Nodup := by
  intro s hs
  obtain ⟨r, _, rfl⟩ := List.mem_map.1 hs
  exact nodup_ringIndices r cloud 0

theorem ringBuckets_disjoint (n : ℕ) (cloud : PointCloud) :
    ((List.range n).map (fun r => ringIndices r cloud 0)).Pairwise List.Disjoint := by
  rw [List.pairwise_map]
  refine List.Pairwise.imp ?_ (List.nodup_range n)
  intro a b hab i hia hib
  have h1 := ((mem_ringIndices_zero a i cloud).1 hia).2
  have h2 := ((mem_ringIndices_zero b i cloud).1 hib).2
  exact hab (h1.symm.trans h2)

theorem ringBuckets_valid (n : ℕ) (cloud : PointCloud) :
    ∀ s ∈ (List.range n).map (fun r => ringIndices r cloud 0), ∀ i ∈ s, i < cloud.length := by
  intro s hs i hi
  obtain ⟨r, _, rfl⟩ := List.mem_map.1 hs
  exact ((mem_ringIndices_zero r i cloud).1 hi).1

/-- After the sort, the first and the last pointer of a non-empty ring bucket point to a
point of that ring with the greatest, respectively the least, `y` of the ring. -/
theorem ring_extrema_of_bucket (n : ℕ) (cloud : PointCloud) (r : ℕ) (hr : r < n)
    (hne : (ringIndices r cloud 0).length ≠ 0) :
    let segs := (List.range n).map (fun r => ringIndices r cloud 0)
    let s := ringIndices r cloud 0
    let c' := sortSegments segs cloud
    (deref c' (s.getD 0 0) ∈ cloud ∧ (deref c' (s.getD 0 0)).ring = r ∧
      ∀ p ∈ cloud, p.ring = r → p.y ≤ (deref c' (s.getD 0 0)).y) ∧
    (deref c' (s.getD (s.length - 1) 0) ∈ cloud ∧
      (deref c' (s.getD (s.length - 1) 0)).ring = r ∧
      ∀ p ∈ cloud, p.ring = r → (deref c' (s.getD (s.length - 1) 0)).y ≤ p.y) := by
  intro segs s c'
  have hs : s ∈ segs := List.mem_map.2 ⟨r, List.mem_range.2 hr, rfl⟩
  obtain ⟨_, _, hall⟩ := sortSegments_spec segs cloud (ringBuckets_nodup n cloud)
    (ringBuckets_disjoint n cloud) (ringBuckets_valid n cloud)
  obtain ⟨⟨hf, hb⟩, hdesc⟩ := hall s hs
  have hlen : 0 < s.length := Nat.pos_of_ne_zero hne
  have hin : ∀ i ∈ s, deref c' i ∈ cloud ∧ (deref c' i).ring = r := by
    intro i hi
    obtain ⟨j, hj, e⟩ := hf i hi
    have hj' := (mem_ringIndices_zero r j cloud).1 hj
    rw [e]
    exact ⟨deref_mem cloud j hj'.1, hj'.2⟩
  have hpos : ∀ p ∈ cloud, p.ring = r → ∃ a, a < s.length ∧ segVal s c' a = p := by
    intro p hp hpr
    obtain ⟨j, hj, e⟩ := exists_deref_of_mem cloud p hp
    have hjs : j ∈ s := (mem_ringIndices_zero r j cloud).2 ⟨hj, by rw [e]; exact hpr⟩
    obtain ⟨i, hi, e'⟩ := hb j hjs
    obtain ⟨a, ha, ea⟩ := exists_pos_of_mem_seg s i hi
    refine ⟨a, ha, ?_⟩
    unfold segVal
    rw [ea, e', e]
  refine ⟨⟨(hin _ (getD_mem_seg s 0 hlen)).1, (hin _ (getD_mem_seg s 0 hlen)).2, ?_⟩,
    ⟨(hin _ (getD_mem_seg s _ (by omega))).1, (hin _ (getD_mem_seg s _ (by omega))).2, ?_⟩⟩
  · intro p hp hpr
    obtain ⟨a, ha, e⟩ := hpos p hp hpr
    rw [← e]
    by_cases ha0 : a = 0
    · subst ha0; exact le_refl _
    · exact hdesc 0 a hlen (Nat.pos_of_ne_zero ha0) ha
  · intro p hp hpr
    obtain ⟨a, ha, e⟩ := hpos p hp hpr
    rw [← e]
    by_cases hal : a = s.length - 1
    · subst hal; exact le_refl _
    · exact hdesc a (s.length - 1) ha (by omega) (by omega)

theorem nonempty_bucket_iff (cloud : PointCloud) (r : ℕ) :
    (ringIndices r cloud 0).length ≠ 0 ↔ r ∈ cloud.map (fun p => p.ring) := by
  rw [List.mem_map]
  constructor
  · intro h
    obtain ⟨k, hk⟩ := List.exists_mem_of_length_pos (Nat.pos_of_ne_zero h)
    have hk' := (mem_ringIndices_zero r k cloud).1 hk
    exact ⟨deref cloud k, deref_mem cloud k hk'.1, hk'.2⟩
  · rintro ⟨p, hp, hpr⟩
    obtain ⟨j, hj, e⟩ := exists_deref_of_mem cloud p hp
    have hjs : j ∈ ringIndices r cloud 0 :=
      (mem_ringIndices_zero r j cloud).2 ⟨hj, by rw [e]; exact hpr⟩
    exact Nat.ne_of_gt (List.length_pos_of_mem hjs)

theorem filter_buckets_eq (n : ℕ) (cloud : PointCloud) :
    (List.range n).filter (fun r => decide ((ringIndices r cloud 0).length ≠ 0)) =
      populatedRings n cloud := by
  unfold populatedRings
  apply List.filter_congr
  intro r _
  rw [decide_eq_decide]
  exact nonempty_bucket_iff cloud r

theorem length_populatedRings (n : ℕ) (cloud : PointCloud) (h : ∀ p ∈ cloud, p.ring < n) :
    (populatedRings n cloud).length = (cloud.map (fun p => p.ring)).toFinset.card := by
  have hnd : (populatedRings n cloud).Nodup := List.Nodup.filter _ (List.nodup_range n)
  rw [← List.toFinset_card_of_nodup hnd]
  congr 1
  ext r
  simp only [populatedRings, List.mem_toFinset, List.mem_filter, List.mem_range,
    decide_eq_true_eq, and_iff_right_iff_imp]
  intro hr
  obtain ⟨p, hp, rfl⟩ := List.mem_map.1 hr
  exact h p hp

/-- C2: when every ring index of the projected set is below `lidar_ring_count`, the
ring-extrema stage returns `max_points` and `min_points` whose ring indices are exactly the
populated rings in increasing order (one point per populated ring, so `k` points each when `k`
distinct ring indices occur), the max point of a ring being a point of the input with that
ring and the greatest `y` of the ring, the min point one with the least `y`. -/
theorem ringExtrema_spec (lidar_ring_count : ℕ) (cloud : PointCloud)
    (h : ∀ p ∈ cloud, p.ring < lidar_ring_count) :
    ∃ max_points min_points,
      ringExtrema lidar_ring_count cloud = Except.ok (max_points, min_points) ∧
      max_points.map (fun p => p.ring) = populatedRings lidar_ring_count cloud ∧
      min_points.map (fun p => p.ring) = populatedRings lidar_ring_count cloud ∧
      max_points.length = (cloud.map (fun p => p.ring)).toFinset.card ∧
      min_points.length = (cloud.map (fun p => p.ring)).toFinset.card ∧
      (∀ m ∈ max_points, m ∈ cloud ∧ ∀ p ∈ cloud, p.ring = m.ring → p.y ≤ m.y) ∧
      (∀ m ∈ min_points, m ∈ cloud ∧ ∀ p ∈ cloud, p.ring = m.ring → m.y ≤ p.y) := by
  have hrun : ringExtrema lidar_ring_count cloud = Except.ok
      (((List.range lidar_ring_count).filter
          (fun r => decide ((ringIndices r cloud 0).length ≠ 0))).map
          (fun r => deref (sortSegments ((List.range lidar_ring_count).map
            (fun r => ringIndices r cloud 0)) cloud) ((ringIndices r cloud 0).getD 0 0)),
       ((List.range lidar_ring_count).filter
          (fun r => decide ((ringIndices r cloud 0).length ≠ 0))).map
          (fun r => deref (sortSegments ((List.range lidar_ring_count).map
            (fun r => ringIndices r cloud 0)) cloud)
            ((ringIndices r cloud 0).getD ((ringIndices r cloud 0).length - 1) 0))) := by
    unfold ringExtrema
    rw [bucketByRing_spec lidar_ring_count cloud h]
    simp only [collectExtrema_eq, List.filter_map, List.map_map]
    rfl
  have hmem : ∀ r, r ∈ (List.range lidar_ring_count).filter
      (fun r => decide ((ringIndices r cloud 0).length ≠ 0)) →
      r < lidar_ring_count ∧ (ringIndices r cloud 0).length ≠ 0 := by
    intro r hr
    have := List.mem_filter.1 hr
    exact ⟨List.mem_range.1 this.1, of_decide_eq_true this.2⟩
  have hmax : (((List.range lidar_ring_count).filter
      (fun r => decide ((ringIndices r cloud 0).length ≠ 0))).map
      (fun r => deref (sortSegments ((List.range lidar_ring_count).map
        (fun r => ringIndices r cloud 0)) cloud) ((ringIndices r cloud 0).getD 0 0))).map
      (fun p => p.ring) = populatedRings lidar_ring_count cloud := by
    rw [List.map_map, ← filter_buckets_eq]
    conv_rhs => rw [← List.map_id (List.filter _ _)]
    apply List.map_congr_left
    intro r hr
    obtain ⟨h1, h2⟩ := hmem r hr
    exact (ring_extrema_of_bucket lidar_ring_count cloud r h1 h2).1.2.1
  have hmin : (((List.range lidar_ring_count).filter
      (fun r => decide ((ringIndices r cloud 0).length ≠ 0))).map
      (fun r => deref (sortSegments ((List.range lidar_ring_count).map
        (fun r => ringIndices r cloud 0)) cloud)
        ((ringIndices r cloud 0).getD ((ringIndices r cloud 0).length - 1) 0))).map
      (fun p => p.ring) = populatedRings lidar_ring_count cloud := by
    rw [List.map_map, ← filter_buckets_eq]
    conv_rhs => rw [← List.map_id (List.filter _ _)]
    apply List.map_congr_left
    intro r hr
    obtain ⟨h1, h2⟩ := hmem r hr
    exact (ring_extrema_of_bucket lidar_ring_count cloud r h1 h2).2.2.1
  refine ⟨_, _, hrun, hmax, hmin, ?_, ?_, ?_, ?_⟩
  · have hl := congrArg List.length hmax
    rw [List.length_map] at hl
    rw [hl, length_populatedRings lidar_ring_count cloud h]
  · have hl := congrArg List.length hmin
    rw [List.length_map] at hl
    rw [hl, length_populatedRings lidar_ring_count cloud h]
  · intro m hm
    obtain ⟨r, hr, rfl⟩ := List.mem_map.1 hm
    obtain ⟨h1, h2⟩ := hmem r hr
    obtain ⟨⟨a1, a2, a3⟩, _⟩ := ring_extrema_of_bucket lidar_ring_count cloud r h1 h2
    exact ⟨a1, fun p hp hpr => a3 p hp (hpr.trans a2)⟩
  · intro m hm
    obtain ⟨r, hr, rfl⟩ := List.mem_map.1 hm
    obtain ⟨h1, h2⟩ := hmem r hr
    obtain ⟨_, ⟨a1, a2, a3⟩⟩ := ring_extrema_of_bucket lidar_ring_count cloud r h1 h2
    exact ⟨a1, fun p hp hpr => a3 p hp (hpr.trans a2)⟩

theorem ringExtrema_spec_witness :
    (∀ p ∈ ringSample, p.ring < 4) ∧
    ∃ max_points min_points,
      ringExtrema 4 ringSample = Except.ok (max_points, min_points) ∧
      max_points.map (fun p => p.ring) = populatedRings 4 ringSample ∧
      min_points.map (fun p => p.ring) = populatedRings 4 ringSample ∧
      max_points.length = (ringSample.map (fun p => p.ring)).toFinset.card ∧
      min_points.length = (ringSample.map (fun p => p.ring)).toFinset.card ∧
      (∀ m ∈ max_points, m ∈ ringSample ∧ ∀ p ∈ ringSample, p.ring = m.ring → p.y ≤ m.y) ∧
      (∀ m ∈ min_points, m ∈ ringSample ∧ ∀ p ∈ ringSample, p.ring = m.ring → m.y ≤ p.y) :=
  ⟨by decide, ringExtrema_spec 4 ringSample (by decide)⟩

/-! ### Reads, pushes and the corner list -/

theorem readAt_ok {α : Type} (c : Container) (v : List α) (i : ℕ) (a : α)
    (h : v[i]? = some a) : readAt c v i = Except.ok a := by
  unfold readAt
  rw [h]

theorem readAt_ok_inv {α : Type} (c : Container) (v : List α) (i : ℕ) (a : α)
    (h : readAt c v i = Except.ok a) : v[i]? = some a := by
  unfold readAt at h
  cases hv : v[i]? with
  | none => rw [hv] at h; exact Except.noConfusion h
  | some b =>
    rw [hv] at h
    injection h with h
    rw [h]

theorem readAt_error {α : Type} (c : Container) (v : List α) (i : ℕ) (h : v.length ≤ i) :
    readAt c v i = Except.error ⟨c, i, v.length⟩ := by
  unfold readAt
  rw [List.getElem?_eq_none h]

theorem pushIntersection_some (basic_cloud : List Vec3) (line_a line_b : Line) (p : Vec3)
    (h : lineWithLineIntersection line_a line_b = some p) :
    pushIntersection basic_cloud line_a line_b = basic_cloud ++ [p] := by
  unfold pushIntersection
  rw [h]

theorem pushIntersection_none (basic_cloud : List Vec3) (line_a line_b : Line)
    (h : lineWithLineIntersection line_a line_b = none) :
    pushIntersection basic_cloud line_a line_b = basic_cloud := by
  unfold pushIntersection
  rw [h]

/-- With both first intersections found and the four unchecked reads in range, the corner list
is the first two corners followed by the pushes of the branch the side test selects. -/
theorem cornerReconstruction_eq (left_up left_dwn right_up right_dwn : Line)
    (min_points max_points : PointCloud) (inliers_right_dwn inliers_left_dwn : List ℕ)
    (c0 c1 : Vec3) (i1 i2 : ℕ) (m1 m2 : PointXYZIR)
    (h0 : lineWithLineIntersection left_up left_dwn = some c0)
    (h1 : lineWithLineIntersection right_up right_dwn = some c1)
    (hi1 : inliers_right_dwn[0]? = some i1) (hm1 : min_points[i1]? = some m1)
    (hi2 : inliers_left_dwn[0]? = some i2) (hm2 : max_points[i2]? = some m2) :
    cornerReconstruction left_up left_dwn right_up right_dwn min_points max_points
        inliers_right_dwn inliers_left_dwn =
      Except.ok (pushRemaining [c0, c1] left_up left_dwn right_up right_dwn (c1.sub c0)
        (m1.xyz.sub c0) (m2.xyz.sub c0)) := by
  unfold cornerReconstruction
  dsimp only
  rw [pushIntersection_some _ _ _ c0 h0, pushIntersection_some _ _ _ c1 h1]
  rw [readAt_ok _ ([] ++ [c0] ++ [c1]) 1 c1 rfl, readAt_ok _ ([] ++ [c0] ++ [c1]) 0 c0 rfl,
    readAt_ok _ _ 0 i1 hi1]
  simp only [bind, Except.bind]
  rw [readAt_ok _ _ i1 m1 hm1]
  simp only []
  rw [readAt_ok _ _ 0 i2 hi2]
  simp only []
  rw [readAt_ok _ _ i2 m2 hm2]
  rfl

/-- A completed corner reconstruction found both first intersections and made its four reads
in range. -/
theorem cornerReconstruction_ok_inv (left_up left_dwn right_up right_dwn : Line)
    (min_points max_points : PointCloud) (inliers_right_dwn inliers_left_dwn : List ℕ)
    (basic_cloud : List Vec3)
    (h : cornerReconstruction left_up left_dwn right_up right_dwn min_points max_points
      inliers_right_dwn inliers_left_dwn = Except.ok basic_cloud) :
    ∃ c0 c1 i1 m1 i2 m2,
      lineWithLineIntersection left_up left_dwn = some c0 ∧
      lineWithLineIntersection right_up right_dwn = some c1 ∧
      inliers_right_dwn[0]? = some i1 ∧ min_points[i1]? = some m1 ∧
      inliers_left_dwn[0]? = some i2 ∧ max_points[i2]? = some m2 ∧
      basic_cloud = pushRemaining [c0, c1] left_up left_dwn right_up right_dwn (c1.sub c0)
        (m1.xyz.sub c0) (m2.xyz.sub c0) := by
  unfold cornerReconstruction at h
  dsimp only at h
  cases h0 : lineWithLineIntersection left_up left_dwn with
  | none =>
    rw [pushIntersection_none _ _ _ h0] at h
    cases h1 : lineWithLineIntersection right_up right_dwn with
    | none =>
      rw [pushIntersection_none _ _ _ h1, readAt_error _ [] 1 (by simp)] at h
      exact Except.noConfusion h
    | some c1 =>
      rw [pushIntersection_some _ _ _ c1 h1, readAt_error _ ([] ++ [c1]) 1 (by simp)] at h
      exact Except.noConfusion h
  | some c0 =>
    rw [pushIntersection_some _ _ _ c0 h0] at h
    cases h1 : lineWithLineIntersection right_up right_dwn with
    | none =>
      rw [pushIntersection_none _ _ _ h1, readAt_error _ ([] ++ [c0]) 1 (by simp)] at h
      exact Except.noConfusion h
    | some c1 =>
      rw [pushIntersection_some _ _ _ c1 h1] at h
      rw [readAt_ok _ ([] ++ [c0] ++ [c1]) 1 c1 rfl, readAt_ok _ ([] ++ [c0] ++ [c1]) 0 c0 rfl]
        at h
      cases hi1 : readAt Container.inliers_right_dwn inliers_right_dwn 0 with
      | error f => rw [hi1] at h; exact Except.noConfusion h
      | ok i1 =>
        cases hm1 : readAt Container.min_points min_points i1 with
        | error f => rw [hi1] at h; simp only [bind, Except.bind] at h; rw [hm1] at h; exact Except.noConfusion h
        | ok m1 =>
          cases hi2 : readAt Container.inliers_left_dwn inliers_left_dwn 0 with
          | error f =>
            rw [hi1] at h; simp only [bind, Except.bind] at h; rw [hm1] at h
            simp only [] at h; rw [hi2] at h; exact Except.noConfusion h
          | ok i2 =>
            cases hm2 : readAt Container.max_points max_points i2 with
            | error f =>
              rw [hi1] at h; simp only [bind, Except.bind] at h; rw [hm1] at h
              simp only [] at h; rw [hi2] at h; simp only [] at h; rw [hm2] at h
              exact Except.noConfusion h
            | ok m2 =>
              rw [hi1] at h; simp only [bind, Except.bind] at h; rw [hm1] at h
              simp only [] at h; rw [hi2] at h; simp only [] at h; rw [hm2] at h
              simp only [pure, Except.pure] at h
              injection h with h
              exact ⟨c0, c1, i1, m1, i2, m2, rfl, rfl, readAt_ok_inv _ _ _ _ hi1,
                readAt_ok_inv _ _ _ _ hm1, readAt_ok_inv _ _ _ _ hi2,
                readAt_ok_inv _ _ _ _ hm2, h.symm⟩

theorem pushIntersection_eq (basic_cloud : List Vec3) (line_a line_b : Line) :
    pushIntersection basic_cloud line_a line_b =
      basic_cloud ++ (lineWithLineIntersection line_a line_b).toList := by
  cases h : lineWithLineIntersection line_a line_b with
  | none => rw [pushIntersection_none _ _ _ h]; simp
  | some p => rw [pushIntersection_some _ _ _ p h]; simp

theorem pushRemaining_eq (basic_cloud : List Vec3) (left_up left_dwn right_up right_dwn : Line)
    (diagonal p1 p2 : Vec3) :
    pushRemaining basic_cloud left_up left_dwn right_up right_dwn diagonal p1 p2 =
      basic_cloud ++
        (if sideTest diagonal p1 p2 > 0 then
          (lineWithLineIntersection left_dwn right_up).toList ++
            (lineWithLineIntersection left_up right_dwn).toList
        else
          (lineWithLineIntersection left_dwn right_dwn).toList ++
            (lineWithLineIntersection left_up right_up).toList) := by
  unfold pushRemaining
  split_ifs with h
  · rw [pushIntersection_eq, pushIntersection_eq, List.append_assoc]
  · rw [pushIntersection_eq, pushIntersection_eq, List.append_assoc]

/-! ### C3: corner reconstruction on an exact square -/

/-- C3 (fails on the code): for the exact square with `left_up = edgeWest`,
`left_dwn = edgeSouth` meeting at the true corner `cornerSW`, the right pair meeting at the
opposite corner `cornerNE`, and the side-test points on the `left_dwn` and `right_dwn` edges,
the reconstruction returns only the two corners `cornerSW`, `cornerNE`: with
`right_dwn = edgeEast` the side test is positive and the branch intersects the parallel pairs
(south, north) and (west, east); with the handedness swapped (`right_dwn = edgeNorth`) the side
test is negative and the other branch intersects the parallel pairs (south, north) and
(west, east) again. -/
theorem square_reconstruction_two_corners :
    (lineWithLineIntersection edgeWest edgeSouth = some cornerSW ∧
      lineWithLineIntersection edgeNorth edgeEast = some cornerNE ∧
      lineWithLineIntersection edgeEast edgeNorth = some cornerNE) ∧
    (sideTest (cornerNE.sub cornerSW) (Vec3.sub ⟨7 / 2, 4, 0⟩ cornerSW)
        (Vec3.sub ⟨3, 7 / 2, 0⟩ cornerSW) > 0 ∧
      cornerReconstruction edgeWest edgeSouth edgeNorth edgeEast midEast midSouth [0] [0] =
        Except.ok [cornerSW, cornerNE]) ∧
    (¬ sideTest (cornerNE.sub cornerSW) (Vec3.sub ⟨3, 9 / 2, 0⟩ cornerSW)
        (Vec3.sub ⟨3, 7 / 2, 0⟩ cornerSW) > 0 ∧
      cornerReconstruction edgeWest edgeSouth edgeEast edgeNorth midNorth midSouth [0] [0] =
        Except.ok [cornerSW, cornerNE]) := by
  decide!

/-! ### C4: fewer than four corners -/

/-- Whenever the corner reconstruction ends with fewer than four corners, the stage ends in an
out-of-range read of the corner list at an index not below its size, and nothing of it
publishes a `roi_points` message in the model; there is no branch that discards the sample. -/
theorem short_corner_list_faults (env : Env) (a b c mag : ℚ)
    (left_up left_dwn right_up right_dwn : Line) (min_points max_points : PointCloud)
    (inliers_right_dwn inliers_left_dwn : List ℕ) (corner_vectors : List Vec3)
    (chessboard_normal : Vec3) (basic_cloud : List Vec3)
    (h : cornerReconstruction left_up left_dwn right_up right_dwn min_points max_points
      inliers_right_dwn inliers_left_dwn = Except.ok basic_cloud)
    (hlen : basic_cloud.length < 4) :
    ∃ events fault,
      reconstructAndPublish env a b c mag left_up left_dwn right_up right_dwn min_points
        max_points inliers_right_dwn inliers_left_dwn corner_vectors chessboard_normal =
        (events, some fault) ∧
      fault.container = Container.basic_cloud ∧ basic_cloud.length ≤ fault.index ∧
      ∀ sample, Event.roi_points sample ∉ events := by
  unfold reconstructAndPublish
  rw [h]
  dsimp only
  match basic_cloud, hlen with
  | [], _ =>
    exact ⟨[], ⟨Container.basic_cloud, 0, 0⟩, rfl, rfl, le_refl _, fun _ => List.not_mem_nil _⟩
  | [x], _ =>
    exact ⟨[], ⟨Container.basic_cloud, 1, 1⟩, rfl, rfl, le_refl _, fun _ => List.not_mem_nil _⟩
  | [x, y], _ =>
    exact ⟨[], ⟨Container.basic_cloud, 2, 2⟩, rfl, rfl, le_refl _, fun _ => List.not_mem_nil _⟩
  | [x, y, z], _ =>
    refine ⟨[Event.board_corners_3d 0 [x], Event.board_corners_3d 1 [y],
      Event.board_corners_3d 2 [z]], ⟨Container.basic_cloud, 3, 3⟩, rfl, rfl, le_refl _, ?_⟩
    intro sample hmem
    simp at hmem
  | _ :: _ :: _ :: _ :: _, hl => exact absurd hl (by simp)

/-- A corner reconstruction that ends in an out-of-range read ends the stage there. -/
theorem failed_reconstruction_faults (env : Env) (a b c mag : ℚ)
    (left_up left_dwn right_up right_dwn : Line) (min_points max_points : PointCloud)
    (inliers_right_dwn inliers_left_dwn : List ℕ) (corner_vectors : List Vec3)
    (chessboard_normal : Vec3) (fault : Fault)
    (h : cornerReconstruction left_up left_dwn right_up right_dwn min_points max_points
      inliers_right_dwn inliers_left_dwn = Except.error fault) :
    reconstructAndPublish env a b c mag left_up left_dwn right_up right_dwn min_points
      max_points inliers_right_dwn inliers_left_dwn corner_vectors chessboard_normal =
      ([], some fault) := by
  unfold reconstructAndPublish
  rw [h]

/-- On the exact square with one side-test point on `left_up` and the other on `right_dwn`
all four intersections are found and the sample is published. -/
theorem four_corners_published :
    (reconstructAndPublish noModelEnv 0 0 1 1 edgeWest edgeSouth edgeNorth edgeEast midEast
      midWest [0] [0] (corner_vectors boardParams boardImage) (chessboard_normal boardImage)).2 =
      none ∧
    Event.roi_points ⟨⟨3000, 4000, 0⟩, ⟨0, 0, -1⟩, ⟨0, 0, 2000⟩, ⟨0, 0, 1⟩, ⟨7 / 2, 7 / 2, 0⟩⟩ ∈
      (reconstructAndPublish noModelEnv 0 0 1 1 edgeWest edgeSouth edgeNorth edgeEast midEast
        midWest [0] [0] (corner_vectors boardParams boardImage)
        (chessboard_normal boardImage)).1 := by
  decide!

/-- C4 (fails on the code): when an intersection reports no intersection the stage does not
fail cleanly but reads the corner list out of range. With the two max-set lines parallel
(first intersection missing) `points[1]` is read in a list of one corner; with only the third
intersection missing, three corner markers are published and `points[3]` is read in a list of
three corners. -/
theorem missing_corner_read_out_of_range :
    (lineWithLineIntersection edgeWest lineMidWest = none ∧
      reconstructAndPublish noModelEnv 0 0 1 1 edgeWest lineMidWest edgeNorth edgeEast midEast
        midWest [0] [0] (corner_vectors boardParams boardImage) ⟨0, 0, 1⟩ =
        ([], some ⟨Container.basic_cloud, 1, 1⟩)) ∧
    (lineWithLineIntersection edgeSouth edgeNorth = none ∧
      reconstructAndPublish noModelEnv 0 0 1 1 edgeWest edgeSouth edgeNorth slantEdge onSlant
        midSouth [0] [0] (corner_vectors boardParams boardImage) ⟨0, 0, 1⟩ =
        ([Event.board_corners_3d 0 [cornerSW], Event.board_corners_3d 1 [cornerNE],
          Event.board_corners_3d 2 [⟨5 / 2, 35 / 6, 0⟩]],
         some ⟨Container.basic_cloud, 3, 3⟩)) := by
  decide!

/-! ### C5: empty filtered cloud -/

/-- Every capture with the pattern found and an empty filtered cloud ends in the read of
`cloud_bounded->points[0]`, before the plane fit and its check. -/
theorem empty_filtered_cloud_faults (env : Env) (params : Params) (st : State) (image : Image)
    (pointcloud : PointCloud) (hflag : st.flag = params.CAPTURE)
    (hpattern : image.pattern_found = true) (hempty : passthrough st.bounds_ pointcloud = []) :
    extractRegionOfInterest env params st image pointcloud =
      ⟨0,
       [Event.expt_region [], Event.log LogMsg.processing_sample,
        Event.log LogMsg.chessboard_found, Event.log LogMsg.publishing_chessboard_image,
        Event.camera_features],
       some ⟨Container.cloud_bounded, 0, 0⟩⟩ := by
  have hloc : locateChessboard params image =
      ([Event.log LogMsg.chessboard_found, Event.log LogMsg.publishing_chessboard_image,
        Event.camera_features],
       some (corner_vectors params image, chessboard_normal image)) := by
    simp [locateChessboard, hpattern]
  have hcloud : ∀ cv cn, cloudFeatures env params [] cv cn =
      ([], some ⟨Container.cloud_bounded, 0, 0⟩) := fun _ _ => rfl
  unfold extractRegionOfInterest
  rw [hempty]
  simp only [hflag, if_true, hloc, hcloud, List.append_nil]

/-- C5 (fails on the code): a capture with the pattern found and every point outside the
bounds reads `cloud_bounded->points[0]` of the empty filtered cloud; the plane-fit check and
its warning are not reached. -/
theorem empty_cloud_read_out_of_range :
    passthrough unitBounds farCloud = [] ∧
    extractRegionOfInterest noModelEnv boardParams ⟨1, unitBounds⟩ boardImage farCloud =
      ⟨0,
       [Event.expt_region [], Event.log LogMsg.processing_sample,
        Event.log LogMsg.chessboard_found, Event.log LogMsg.publishing_chessboard_image,
        Event.camera_features],
       some ⟨Container.cloud_bounded, 0, 0⟩⟩ := by
  decide!

/-! ### C6: pattern not found -/

/-- C6: when the flag is `CAPTURE` and the detector finds no pattern, `locateChessboard`
returns no value and the cycle consists of the experimental-region publication and the two log
lines only, whatever the cloud and the library results: no cloud-side stage contributes an
effect or a read, and no `roi_points` message is published. -/
theorem pattern_not_found_aborts (env : Env) (params : Params) (st : State) (image : Image)
    (pointcloud : PointCloud) (hflag : st.flag = params.CAPTURE)
    (hpattern : image.pattern_found = false) :
    (locateChessboard params image).2 = none ∧
    extractRegionOfInterest env params st image pointcloud =
      ⟨0,
       [Event.expt_region (passthrough st.bounds_ pointcloud),
        Event.log LogMsg.processing_sample, Event.log LogMsg.no_chessboard_found],
       none⟩ ∧
    ∀ sample, Event.roi_points sample ∉
      (extractRegionOfInterest env params st image pointcloud).events := by
  have hloc : locateChessboard params image = ([Event.log LogMsg.no_chessboard_found], none) := by
    simp [locateChessboard, hpattern]
  have hrun : extractRegionOfInterest env params st image pointcloud =
      ⟨0,
       [Event.expt_region (passthrough st.bounds_ pointcloud),
        Event.log LogMsg.processing_sample, Event.log LogMsg.no_chessboard_found],
       none⟩ := by
    simp [extractRegionOfInterest, hflag, hloc]
  refine ⟨by rw [hloc], hrun, ?_⟩
  intro sample
  rw [hrun]
  simp

theorem pattern_not_found_aborts_witness :
    (locateChessboard boardParams blackImage).2 = none ∧
    extractRegionOfInterest noModelEnv boardParams ⟨1, unitBounds⟩ blackImage twoLevelCloud =
      ⟨0,
       [Event.expt_region (passthrough unitBounds twoLevelCloud),
        Event.log LogMsg.processing_sample, Event.log LogMsg.no_chessboard_found],
       none⟩ ∧
    ∀ sample, Event.roi_points sample ∉
      (extractRegionOfInterest noModelEnv boardParams ⟨1, unitBounds⟩ blackImage
        twoLevelCloud).events :=
  pattern_not_found_aborts noModelEnv boardParams ⟨1, unitBounds⟩ blackImage twoLevelCloud rfl rfl

/-! ### C7: the capture flag -/

theorem cornerMarkers_quiet (basic_cloud : List Vec3) (centre : Vec3) :
    ∀ ids, Event.log LogMsg.processing_sample ∉ (cornerMarkers basic_cloud centre ids).1 := by
  intro ids
  induction ids with
  | nil => simp [cornerMarkers]
  | cons i rest ih =>
    unfold cornerMarkers
    split_ifs with h
    · cases hr : readAt Container.basic_cloud basic_cloud i with
      | error f => simp
      | ok p => simpa using ih
    · simpa using ih

theorem minmaxMarkers_quiet (min_points max_points : PointCloud) :
    Event.log LogMsg.processing_sample ∉ minmaxMarkers min_points max_points := by
  simp [minmaxMarkers]

theorem reconstructAndPublish_quiet (env : Env) (a b c mag : ℚ)
    (left_up left_dwn right_up right_dwn : Line) (min_points max_points : PointCloud)
    (inliers_right_dwn inliers_left_dwn : List ℕ) (corner_vectors : List Vec3)
    (chessboard_normal : Vec3) :
    Event.log LogMsg.processing_sample ∉
      (reconstructAndPublish env a b c mag left_up left_dwn right_up right_dwn min_points
        max_points inliers_right_dwn inliers_left_dwn corner_vectors chessboard_normal).1 := by
  unfold reconstructAndPublish
  cases cornerReconstruction left_up left_dwn right_up right_dwn min_points max_points
      inliers_right_dwn inliers_left_dwn with
  | error f => simp
  | ok basic_cloud =>
    dsimp only
    cases assembleSample env a b c mag basic_cloud corner_vectors chessboard_normal with
    | error f => simp
    | ok sample_data =>
      have hq := cornerMarkers_quiet basic_cloud
        (Vec3.smul (1 / 1000) sample_data.velodynepoint) [0, 1, 2, 3, 4]
      have hm := minmaxMarkers_quiet min_points max_points
      dsimp only
      cases hcm : cornerMarkers basic_cloud (Vec3.smul (1 / 1000) sample_data.velodynepoint)
          [0, 1, 2, 3, 4] with
      | mk markers fault =>
        rw [hcm] at hq
        cases fault with
        | some f => exact hq
        | none =>
          dsimp only
          cases lineStripPoints basic_cloud with
          | error f =>
            dsimp only
            rw [List.mem_append]
            exact fun h => h.elim hq hm
          | ok strip =>
            dsimp only
            rw [List.mem_append, List.mem_append]
            rintro ((h | h) | h)
            · exact hq h
            · exact hm h
            · simp at h

theorem fitLinesAndPublish_quiet (env : Env) (a b c mag : ℚ) (min_points max_points : PointCloud)
    (corner_vectors : List Vec3) (chessboard_normal : Vec3) :
    Event.log LogMsg.processing_sample ∉
      (fitLinesAndPublish env a b c mag min_points max_points corner_vectors
        chessboard_normal).1 := by
  unfold fitLinesAndPublish
  dsimp only
  split
  · exact reconstructAndPublish_quiet _ _ _ _ _ _ _ _ _ _ _ _ _ _ _
  · simp
  · simp
  · simp
  · simp

theorem cloudFeatures_quiet (env : Env) (params : Params) (cloud_bounded : PointCloud)
    (corner_vectors : List Vec3) (chessboard_normal : Vec3) :
    Event.log LogMsg.processing_sample ∉
      (cloudFeatures env params cloud_bounded corner_vectors chessboard_normal).1 := by
  unfold cloudFeatures
  split
  · simp
  · split
    · dsimp only
      split
      · simp
      · rw [List.mem_cons]
        rintro (h | h)
        · exact Event.noConfusion h
        · exact fitLinesAndPublish_quiet _ _ _ _ _ _ _ _ _ h
    · simp

theorem locateChessboard_quiet (params : Params) (image : Image) :
    Event.log LogMsg.processing_sample ∉ (locateChessboard params image).1 := by
  unfold locateChessboard
  split_ifs <;> simp

/-- The effects of one cycle start with the region publication; a capture adds the start
line once, followed by effects that do not contain it. -/
theorem pipelineRuns_cycle (env : Env) (params : Params) (st : State) (image : Image)
    (pointcloud : PointCloud) :
    pipelineRuns (extractRegionOfInterest env params st image pointcloud).events =
      if st.flag = params.CAPTURE then 1 else 0 := by
  unfold extractRegionOfInterest pipelineRuns
  dsimp only
  have hl := locateChessboard_quiet params image
  split_ifs with hflag
  · cases hloc : locateChessboard params image with
    | mk logs result =>
      rw [hloc] at hl
      cases result with
      | none =>
        dsimp only
        rw [List.count_cons, List.count_cons, List.count_eq_zero.2 hl]
        simp
      | some retval =>
        dsimp only
        have hc := cloudFeatures_quiet env params (passthrough st.bounds_ pointcloud)
          retval.1 retval.2
        rw [List.count_append, List.count_cons, List.count_cons, List.count_eq_zero.2 hl,
          List.count_eq_zero.2 hc]
        simp
  · simp

theorem flag_after_cycle (env : Env) (params : Params) (st : State) (image : Image)
    (pointcloud : PointCloud) :
    (extractRegionOfInterest env params st image pointcloud).flag =
      if st.flag = params.CAPTURE then 0 else st.flag := by
  unfold extractRegionOfInterest
  dsimp only
  split_ifs with hflag
  · cases hloc : locateChessboard params image with
    | mk logs result =>
      cases result <;> rfl
  · rfl

theorem pipelineRuns_append (e1 e2 : List Event) :
    pipelineRuns (e1 ++ e2) = pipelineRuns e1 + pipelineRuns e2 := by
  unfold pipelineRuns
  exact List.count_append _ _ _

theorem pipelineRuns_sampleCB (params : Params) (st : State) (operation : ℤ) :
    pipelineRuns (sampleCB params st operation).2.1 = 0 := by
  unfold sampleCB pipelineRuns
  dsimp only
  split_ifs <;> simp

/-- Over any callback sequence, pipeline runs are bounded by the `CAPTURE` requests received,
plus one if the flag is `CAPTURE` at the start. -/
theorem runs_le_requests (env : Env) (params : Params) (hcap : params.CAPTURE ≠ 0) :
    ∀ (inputs : List Input) (st : State),
      pipelineRuns (run env params st inputs) ≤
        captureRequests params inputs + (if st.flag = params.CAPTURE then 1 else 0) := by
  intro inputs
  induction inputs with
  | nil => intro st; simp [run, pipelineRuns]
  | cons i rest ih =>
    intro st
    cases i with
    | sample operation =>
      have hrun : run env params st (Input.sample operation :: rest) =
          (sampleCB params st operation).2.1 ++
            run env params (sampleCB params st operation).1 rest := rfl
      have hflag : (sampleCB params st operation).1.flag = operation := rfl
      have := ih (sampleCB params st operation).1
      rw [hflag] at this
      rw [hrun, pipelineRuns_append, pipelineRuns_sampleCB, Nat.zero_add]
      by_cases hop : operation = params.CAPTURE
      · have hreq : captureRequests params (Input.sample operation :: rest) =
            captureRequests params rest + 1 := by
          simp [captureRequests, hop]
        rw [hreq]
        rw [if_pos hop] at this
        omega
      · have hreq : captureRequests params (Input.sample operation :: rest) =
            captureRequests params rest := by
          simp [captureRequests, hop]
        rw [hreq]
        rw [if_neg hop] at this
        omega
    | bounds config =>
      have hrun : run env params st (Input.bounds config :: rest) =
          run env params (boundsCB st config) rest := rfl
      have hreq : captureRequests params (Input.bounds config :: rest) =
          captureRequests params rest := by
        simp [captureRequests]
      rw [hrun, hreq]
      exact ih (boundsCB st config)
    | frame image pointcloud =>
      have hrun : run env params st (Input.frame image pointcloud :: rest) =
          (extractRegionOfInterest env params st image pointcloud).events ++
            run env params
              { st with flag := (extractRegionOfInterest env params st image pointcloud).flag }
              rest := rfl
      have hreq : captureRequests params (Input.frame image pointcloud :: rest) =
          captureRequests params rest := by
        simp [captureRequests]
      have := ih { st with flag := (extractRegionOfInterest env params st image pointcloud).flag }
      rw [hrun, hreq, pipelineRuns_append, pipelineRuns_cycle]
      dsimp only at this
      rw [flag_after_cycle] at this ⊢
      by_cases hflag : st.flag = params.CAPTURE
      · simp only [if_pos hflag] at this ⊢
        rw [if_neg (fun h : (0 : ℤ) = params.CAPTURE => hcap h.symm)] at this
        omega
      · simp only [if_neg hflag] at this ⊢
        omega

/-- One `CAPTURE` request followed by two input pairs arms exactly one pipeline run: the second
pair finds the flag cleared. -/
theorem one_request_one_run :
    pipelineRuns (run noModelEnv boardParams ⟨0, unitBounds⟩ triggerThenFrames) = 1 := by
  decide!

/-! ### C8: the emitted cloud-side target point -/

/-- The assembly completes on a corner list of at least three corners. -/
theorem assembleSample_ok (env : Env) (a b c mag : ℚ) (c0 c1 c2 : Vec3) (rest : List Vec3)
    (corner_vectors : List Vec3) (chessboard_normal : Vec3) :
    assembleSample env a b c mag ([c0, c1] ++ c2 :: rest) corner_vectors chessboard_normal =
      Except.ok
        ⟨⟨(c0.x + c1.x) * 1000 / 2, (c0.y + c1.y) * 1000 / 2, (c0.z + c1.z) * 1000 / 2⟩,
         velodyneNormal env a b c mag
           ⟨(c0.x + c1.x) * 1000 / 2, (c0.y + c1.y) * 1000 / 2, (c0.z + c1.z) * 1000 / 2⟩,
         corner_vectors.getD 4 (eyeColumn 4), chessboard_normal, c2⟩ := by
  unfold assembleSample
  rw [readAt_ok _ _ 0 c0 (by simp), readAt_ok _ _ 1 c1 (by simp), readAt_ok _ _ 2 c2 (by simp)]
  rfl

/-- C8: when the corner reconstruction completes with at least the three corners the
assembly reads, the assembly yields a sample whose `velodynepoint` is
`1000 * (c0 + c1) / 2` per coordinate, where `c0`, the first corner, is the intersection of
the max-set line pair and `c1`, the second, that of the min-set line pair. -/
theorem velodynepoint_scaled_midpoint (env : Env) (a b c mag : ℚ)
    (left_up left_dwn right_up right_dwn : Line) (min_points max_points : PointCloud)
    (inliers_right_dwn inliers_left_dwn : List ℕ) (corner_vectors : List Vec3)
    (chessboard_normal : Vec3) (basic_cloud : List Vec3)
    (hrec : cornerReconstruction left_up left_dwn right_up right_dwn min_points max_points
      inliers_right_dwn inliers_left_dwn = Except.ok basic_cloud)
    (hlen : 3 ≤ basic_cloud.length) :
    ∃ c0 c1 sample_data,
      lineWithLineIntersection left_up left_dwn = some c0 ∧
      lineWithLineIntersection right_up right_dwn = some c1 ∧
      basic_cloud[0]? = some c0 ∧ basic_cloud[1]? = some c1 ∧
      assembleSample env a b c mag basic_cloud corner_vectors chessboard_normal =
        Except.ok sample_data ∧
      sample_data.velodynepoint =
        ⟨1000 * (c0.x + c1.x) / 2, 1000 * (c0.y + c1.y) / 2, 1000 * (c0.z + c1.z) / 2⟩ := by
  obtain ⟨c0, c1, i1, m1, i2, m2, h0, h1, _, _, _, _, hbc⟩ :=
    cornerReconstruction_ok_inv _ _ _ _ _ _ _ _ _ hrec
  rw [pushRemaining_eq] at hbc
  generalize (if sideTest (c1.sub c0) (m1.xyz.sub c0) (m2.xyz.sub c0) > 0 then
      (lineWithLineIntersection left_dwn right_up).toList ++
        (lineWithLineIntersection left_up right_dwn).toList
    else
      (lineWithLineIntersection left_dwn right_dwn).toList ++
        (lineWithLineIntersection left_up right_up).toList) = tail at hbc
  cases tail with
  | nil => rw [hbc] at hlen; simp at hlen
  | cons c2 rest =>
    subst hbc
    refine ⟨c0, c1, _, h0, h1, rfl, rfl,
      assembleSample_ok env a b c mag c0 c1 c2 rest corner_vectors chessboard_normal, ?_⟩
    simp only [Vec3.mk.injEq]
    refine ⟨?_, ?_, ?_⟩ <;> ring

theorem velodynepoint_scaled_midpoint_witness :
    ∃ c0 c1 sample_data,
      lineWithLineIntersection edgeWest edgeSouth = some c0 ∧
      lineWithLineIntersection edgeNorth edgeEast = some c1 ∧
      squareCorners[0]? = some c0 ∧ squareCorners[1]? = some c1 ∧
      assembleSample noModelEnv 0 0 1 1 squareCorners (corner_vectors boardParams boardImage)
        (chessboard_normal boardImage) = Except.ok sample_data ∧
      sample_data.velodynepoint =
        ⟨1000 * (c0.x + c1.x) / 2, 1000 * (c0.y + c1.y) / 2, 1000 * (c0.z + c1.z) / 2⟩ :=
  velodynepoint_scaled_midpoint noModelEnv 0 0 1 1 edgeWest edgeSouth edgeNorth edgeEast midEast
    midWest [0] [0] (corner_vectors boardParams boardImage) (chessboard_normal boardImage)
    squareCorners (by decide!) (by decide)

/-! ### C9: height band -/

theorem zMaxLoop_spec :
    ∀ (cloud : PointCloud) (z0 : ℚ),
      z0 ≤ zMaxLoop cloud z0 ∧ (∀ q ∈ cloud, q.z ≤ zMaxLoop cloud z0) ∧
      (zMaxLoop cloud z0 = z0 ∨ ∃ q ∈ cloud, q.z = zMaxLoop cloud z0) := by
  intro cloud
  induction cloud with
  | nil => intro z0; simp [zMaxLoop]
  | cons p rest ih =>
    intro z0
    have hstep : zMaxLoop (p :: rest) z0 = zMaxLoop rest (if p.z > z0 then p.z else z0) := rfl
    rw [hstep]
    obtain ⟨h1, h2, h3⟩ := ih (if p.z > z0 then p.z else z0)
    have hz0 : z0 ≤ (if p.z > z0 then p.z else z0) := by
      split_ifs with h
      · exact le_of_lt h
      · exact le_refl _
    have hp : p.z ≤ (if p.z > z0 then p.z else z0) := by
      split_ifs with h
      · exact le_refl _
      · exact not_lt.1 h
    refine ⟨le_trans hz0 h1, ?_, ?_⟩
    · intro q hq
      rcases List.mem_cons.1 hq with rfl | hq'
      · exact le_trans hp h1
      · exact h2 q hq'
    · rcases h3 with h3 | ⟨q, hq, e⟩
      · by_cases h : p.z > z0
        · refine Or.inr ⟨p, List.mem_cons_self p rest, ?_⟩
          rw [h3, if_pos h]
        · refine Or.inl ?_
          rw [h3, if_neg h]
      · exact Or.inr ⟨q, List.mem_cons_of_mem p hq, e⟩

/-- C9 (fails on the code): on every non-empty filtered cloud the loop does compute the
maximum `z`, but `cloud_filtered` is empty whatever `diagonal` is, because `pass_z` is never
given an input cloud. On `twoLevelCloud` with `diagonal = 3/4` the band `[-1/4, 1/2]` holds
both points, as the same filter with its input set returns them, and the code hands the
empty cloud to the plane fit. -/
theorem height_band_is_empty :
    (∀ (diagonal : ℚ) (p : PointXYZIR) (rest : PointCloud),
      ∃ z_max, heightBand diagonal (p :: rest) = Except.ok (z_max, []) ∧
        (∀ q ∈ p :: rest, q.z ≤ z_max) ∧ ∃ q ∈ p :: rest, q.z = z_max) ∧
    heightBand (3 / 4) twoLevelCloud = Except.ok (1 / 2, []) ∧
    PassThrough.filter (some twoLevelCloud) (fun p => p.z) (1 / 2 - 3 / 4) (1 / 2) [] =
      twoLevelCloud := by
  refine ⟨?_, by decide!, by decide!⟩
  intro diagonal p rest
  obtain ⟨_, h2, h3⟩ := zMaxLoop_spec (p :: rest) p.z
  have hrun : heightBand diagonal (p :: rest) = Except.ok (zMaxLoop (p :: rest) p.z, []) := by
    unfold heightBand
    rw [readAt_ok _ (p :: rest) 0 p (by simp)]
    rfl
  refine ⟨zMaxLoop (p :: rest) p.z, hrun, h2, ?_⟩
  rcases h3 with h3 | h3
  · exact ⟨p, List.mem_cons_self p rest, h3.symm⟩
  · exact h3

/-! ### C10: side test and pairing -/

/-- C10: with `corner0 = intersect(left_up, left_dwn)` and `corner1 = intersect(right_up,
right_dwn)` found and the side-test points read, the corner list is `corner0`, `corner1`
followed, when `(diagonal x p1) . (diagonal x p2) > 0`, by `intersect(left_dwn, right_up)` then
`intersect(left_up, right_dwn)`, and otherwise (zero or negative) by
`intersect(left_dwn, right_dwn)` then `intersect(left_up, right_up)`, each present when the
intersection is found. -/
theorem side_test_selects_pairing (left_up left_dwn right_up right_dwn : Line)
    (min_points max_points : PointCloud) (inliers_right_dwn inliers_left_dwn : List ℕ)
    (c0 c1 : Vec3) (i1 i2 : ℕ) (m1 m2 : PointXYZIR)
    (h0 : lineWithLineIntersection left_up left_dwn = some c0)
    (h1 : lineWithLineIntersection right_up right_dwn = some c1)
    (hi1 : inliers_right_dwn[0]? = some i1) (hm1 : min_points[i1]? = some m1)
    (hi2 : inliers_left_dwn[0]? = some i2) (hm2 : max_points[i2]? = some m2) :
    cornerReconstruction left_up left_dwn right_up right_dwn min_points max_points
        inliers_right_dwn inliers_left_dwn =
      Except.ok ([c0, c1] ++
        (if sideTest (c1.sub c0) (m1.xyz.sub c0) (m2.xyz.sub c0) > 0 then
          (lineWithLineIntersection left_dwn right_up).toList ++
            (lineWithLineIntersection left_up right_dwn).toList
        else
          (lineWithLineIntersection left_dwn right_dwn).toList ++
            (lineWithLineIntersection left_up right_up).toList)) := by
  rw [cornerReconstruction_eq left_up left_dwn right_up right_dwn min_points max_points
    inliers_right_dwn inliers_left_dwn c0 c1 i1 i2 m1 m2 h0 h1 hi1 hm1 hi2 hm2,
    pushRemaining_eq]

theorem side_test_selects_pairing_witness :
    cornerReconstruction edgeWest edgeSouth edgeNorth edgeEast midEast midWest [0] [0] =
      Except.ok ([cornerSW, cornerNE] ++
        (if sideTest (cornerNE.sub cornerSW)
            ((⟨7 / 2, 4, 0, 0, 0⟩ : PointXYZIR).xyz.sub cornerSW)
            ((⟨5 / 2, 4, 0, 0, 0⟩ : PointXYZIR).xyz.sub cornerSW) > 0 then
          (lineWithLineIntersection edgeSouth edgeNorth).toList ++
            (lineWithLineIntersection edgeWest edgeEast).toList
        else
          (lineWithLineIntersection edgeSouth edgeEast).toList ++
            (lineWithLineIntersection edgeWest edgeNorth).toList)) :=
  side_test_selects_pairing edgeWest edgeSouth edgeNorth edgeEast midEast midWest [0] [0]
    cornerSW cornerNE 0 0 ⟨7 / 2, 4, 0, 0, 0⟩ ⟨5 / 2, 4, 0, 0, 0⟩ (by decide!) (by decide!)
    rfl rfl rfl rfl

/-! ### C11: the side-test points -/

/-- The corner reconstruction uses exactly the two points `sideTestPoint` reads from the min
set and from the max set. -/
theorem cornerReconstruction_uses_sideTestPoint (left_up left_dwn right_up right_dwn : Line)
    (min_points max_points : PointCloud) (inliers_right_dwn inliers_left_dwn : List ℕ)
    (c0 c1 : Vec3) (m1 m2 : PointXYZIR)
    (h0 : lineWithLineIntersection left_up left_dwn = some c0)
    (h1 : lineWithLineIntersection right_up right_dwn = some c1)
    (hm1 : sideTestPoint Container.min_points Container.inliers_right_dwn min_points
      inliers_right_dwn = Except.ok m1)
    (hm2 : sideTestPoint Container.max_points Container.inliers_left_dwn max_points
      inliers_left_dwn = Except.ok m2) :
    cornerReconstruction left_up left_dwn right_up right_dwn min_points max_points
        inliers_right_dwn inliers_left_dwn =
      Except.ok (pushRemaining [c0, c1] left_up left_dwn right_up right_dwn (c1.sub c0)
        (m1.xyz.sub c0) (m2.xyz.sub c0)) := by
  unfold sideTestPoint at hm1 hm2
  cases hi1 : readAt Container.inliers_right_dwn inliers_right_dwn 0 with
  | error f => rw [hi1] at hm1; exact Except.noConfusion hm1
  | ok i1 =>
    cases hi2 : readAt Container.inliers_left_dwn inliers_left_dwn 0 with
    | error f => rw [hi2] at hm2; exact Except.noConfusion hm2
    | ok i2 =>
      rw [hi1] at hm1
      rw [hi2] at hm2
      simp only [bind, Except.bind] at hm1 hm2
      exact cornerReconstruction_eq left_up left_dwn right_up right_dwn min_points max_points
        inliers_right_dwn inliers_left_dwn c0 c1 i1 i2 m1 m2 h0 h1
        (readAt_ok_inv _ _ _ _ hi1) (readAt_ok_inv _ _ _ _ hm1)
        (readAt_ok_inv _ _ _ _ hi2) (readAt_ok_inv _ _ _ _ hm2)

/-- The point read for the side test is the point of the extremum set at the first inlier
index, whatever cloud that index was computed on. -/
theorem sideTestPoint_eq (c_points c_inliers : Container) (points : PointCloud)
    (inliers : List ℕ) (i : ℕ) (p : PointXYZIR) (hi : inliers[0]? = some i)
    (hp : points[i]? = some p) :
    sideTestPoint c_points c_inliers points inliers = Except.ok p := by
  unfold sideTestPoint
  rw [readAt_ok _ _ 0 i hi]
  simp only [bind, Except.bind]
  exact readAt_ok _ _ i p hp

/-- C11 (fails on the code): with the first line of each set fitted on its points 0 and 1, the
second line is fitted on the remainder (points 2 and 3) and its first inlier has index 0 in
that remainder. The code applies this index to the full set: it reads `min_points[0]`, a point
of the east edge (the first, right-upper line), where the first inlier of the right-lower line
is `cloud_f1[0] = min_points[2]` on the north edge; likewise `max_points[0]` on the west edge
where the first inlier of the left-lower line is `cloud_f[0] = max_points[2]` on the south
edge. -/
theorem side_test_reads_first_line_point :
    (extractNegative minFour (squareFitEnv.segmentLine 2 minFour).1 =
        [⟨13 / 4, 9 / 2, 0, 0, 2⟩, ⟨11 / 4, 9 / 2, 0, 0, 3⟩] ∧
      sideTestPoint Container.min_points Container.inliers_right_dwn
        (extractNegative minFour (squareFitEnv.segmentLine 2 minFour).1)
        (squareFitEnv.segmentLine 3
          (extractNegative minFour (squareFitEnv.segmentLine 2 minFour).1)).1 =
        Except.ok ⟨13 / 4, 9 / 2, 0, 0, 2⟩ ∧
      sideTestPoint Container.min_points Container.inliers_right_dwn minFour
        (squareFitEnv.segmentLine 3
          (extractNegative minFour (squareFitEnv.segmentLine 2 minFour).1)).1 =
        Except.ok ⟨7 / 2, 15 / 4, 0, 0, 0⟩) ∧
    (extractNegative maxFour (squareFitEnv.segmentLine 0 maxFour).1 =
        [⟨11 / 4, 7 / 2, 0, 0, 2⟩, ⟨13 / 4, 7 / 2, 0, 0, 3⟩] ∧
      sideTestPoint Container.max_points Container.inliers_left_dwn
        (extractNegative maxFour (squareFitEnv.segmentLine 0 maxFour).1)
        (squareFitEnv.segmentLine 1
          (extractNegative maxFour (squareFitEnv.segmentLine 0 maxFour).1)).1 =
        Except.ok ⟨11 / 4, 7 / 2, 0, 0, 2⟩ ∧
      sideTestPoint Container.max_points Container.inliers_left_dwn maxFour
        (squareFitEnv.segmentLine 1
          (extractNegative maxFour (squareFitEnv.segmentLine 0 maxFour).1)).1 =
        Except.ok ⟨5 / 2, 15 / 4, 0, 0, 0⟩) ∧
    fitLinesAndPublish squareFitEnv 0 0 1 1 minFour maxFour
        (corner_vectors boardParams boardImage) (chessboard_normal boardImage) =
      reconstructAndPublish squareFitEnv 0 0 1 1 edgeWest edgeSouth edgeEast edgeNorth minFour
        maxFour [0, 1] [0, 1] (corner_vectors boardParams boardImage)
        (chessboard_normal boardImage) := by
  decide!

/-! ### C12: centroid of the inner corners -/

theorem sum_range_affine (s c : ℚ) :
    ∀ n : ℕ, ((List.range n).map fun k : ℕ => s * (k : ℚ) - c).sum =
      s * ((n : ℚ) * ((n : ℚ) - 1) / 2) - (n : ℚ) * c := by
  intro n
  induction n with
  | zero => simp
  | succ n ih =>
    rw [List.range_succ, List.map_append, List.sum_append, ih]
    simp only [List.map_cons, List.map_nil, List.sum_cons, List.sum_nil]
    push_cast
    ring

theorem sum_flatMap_range (f : ℕ → List ℚ) :
    ∀ h : ℕ, ((List.range h).flatMap f).sum = ((List.range h).map fun y => (f y).sum).sum := by
  intro h
  induction h with
  | zero => simp
  | succ h ih =>
    rw [List.range_succ, List.flatMap_append, List.sum_append, ih, List.map_append,
      List.sum_append]
    simp

theorem length_flatMap_range (w : ℕ) (f : ℕ → ℕ → Vec3) :
    ∀ h : ℕ, ((List.range h).flatMap fun y => (List.range w).map (f y)).length = h * w := by
  intro h
  induction h with
  | zero => simp
  | succ h ih =>
    rw [List.range_succ, List.flatMap_append, List.length_append, ih]
    simp [Nat.succ_mul]

theorem length_corners_3d (params : Params) :
    (corners_3d params).length =
      params.chessboard_pattern_size_height * params.chessboard_pattern_size_width := by
  unfold corners_3d
  exact length_flatMap_range _ _ _

/-- Coordinate sums of `corners_3d` for a `w x h` pattern of square length `s`. -/
theorem sum_corners_3d (params : Params) :
    Vec3.sum (corners_3d params) =
      ⟨-((params.chessboard_pattern_size_height : ℚ) *
          (params.chessboard_pattern_size_width : ℚ)) * params.square_length / 2,
       -((params.chessboard_pattern_size_height : ℚ) *
          (params.chessboard_pattern_size_width : ℚ)) * params.square_length / 2, 0⟩ := by
  have hx : ((corners_3d params).map fun p => p.x) =
      (List.range params.chessboard_pattern_size_height).flatMap fun _ =>
        (List.range params.chessboard_pattern_size_width).map fun x : ℕ =>
          params.square_length * (x : ℚ) -
            1 / 2 * params.square_length * params.chessboard_pattern_size_width := by
    simp [corners_3d, List.map_flatMap, Vec3.smul, Vec3.sub, chessboard_centre,
      Function.comp_def]
  have hy : ((corners_3d params).map fun p => p.y) =
      (List.range params.chessboard_pattern_size_height).flatMap fun y : ℕ =>
        (List.range params.chessboard_pattern_size_width).map fun x : ℕ =>
          (0 : ℚ) * (x : ℚ) - -(params.square_length * (y : ℚ) -
            1 / 2 * params.square_length * params.chessboard_pattern_size_height) := by
    simp [corners_3d, List.map_flatMap, Vec3.smul, Vec3.sub, chessboard_centre,
      Function.comp_def]
  have hz : ((corners_3d params).map fun p => p.z) =
      (List.range params.chessboard_pattern_size_height).flatMap fun _ =>
        (List.range params.chessboard_pattern_size_width).map fun x : ℕ =>
          (0 : ℚ) * (x : ℚ) - 0 := by
    simp [corners_3d, List.map_flatMap, Vec3.smul, Vec3.sub, chessboard_centre,
      Function.comp_def]
  unfold Vec3.sum
  rw [hx, hy, hz, sum_flatMap_range, sum_flatMap_range, sum_flatMap_range]
  simp only [sum_range_affine]
  have e1 : ∀ v : ℚ, ((List.range params.chessboard_pattern_size_height).map
      fun _ : ℕ => v) = (List.range params.chessboard_pattern_size_height).map
      fun k : ℕ => (0 : ℚ) * (k : ℚ) - -v := by
    intro v
    apply List.map_congr_left
    intro k _
    ring
  have e2 : ((List.range params.chessboard_pattern_size_height).map fun y : ℕ =>
      (0 : ℚ) * ((params.chessboard_pattern_size_width : ℚ) *
        ((params.chessboard_pattern_size_width : ℚ) - 1) / 2) -
        (params.chessboard_pattern_size_width : ℚ) * -(params.square_length * (y : ℚ) -
          1 / 2 * params.square_length * params.chessboard_pattern_size_height)) =
      (List.range params.chessboard_pattern_size_height).map fun y : ℕ =>
        ((params.chessboard_pattern_size_width : ℚ) * params.square_length) * (y : ℚ) -
          (params.chessboard_pattern_size_width : ℚ) *
            (1 / 2 * params.square_length * params.chessboard_pattern_size_height) := by
    apply List.map_congr_left
    intro k _
    ring
  rw [e1, e1, e2]
  simp only [sum_range_affine, Vec3.mk.injEq]
  refine ⟨?_, ?_, ?_⟩ <;> ring

/-- For every pattern size with at least one corner per row and column, the centroid of
`corners_3d` is `(-square_length / 2, -square_length / 2, 0)`: the grid is centred half a
square away from the origin on both axes. -/
theorem centroid_corners_3d (params : Params) (hw : 1 ≤ params.chessboard_pattern_size_width)
    (hh : 1 ≤ params.chessboard_pattern_size_height) :
    centroid (corners_3d params) = ⟨-params.square_length / 2, -params.square_length / 2, 0⟩ := by
  have hw' : (params.chessboard_pattern_size_width : ℚ) ≠ 0 := by
    have : 0 < params.chessboard_pattern_size_width := hw
    exact_mod_cast this.ne'
  have hh' : (params.chessboard_pattern_size_height : ℚ) ≠ 0 := by
    have : 0 < params.chessboard_pattern_size_height := hh
    exact_mod_cast this.ne'
  unfold centroid
  rw [sum_corners_3d, length_corners_3d]
  simp only [Vec3.smul, Vec3.mk.injEq]
  push_cast
  refine ⟨?_, ?_, ?_⟩
  · field_simp
    ring
  · field_simp
    ring
  · ring

/-- C12 (fails on the code): for the 9 x 6 pattern of 25 mm squares the 54 points of
`corners_3d` have centroid `(-25/2, -25/2, 0)`, not the origin: `chessboard_centre` is
`(width, height) * square_length / 2`, whereas the corners span `0 .. width - 1` and
`0 .. height - 1` squares. -/
theorem corners_3d_not_centred :
    chessboard_centre boardParams = ⟨225 / 2, 75, 0⟩ ∧
    (corners_3d boardParams).length = 54 ∧
    (corners_3d boardParams)[0]? = some ⟨-225 / 2, -75, 0⟩ ∧
    (corners_3d boardParams)[53]? = some ⟨175 / 2, 50, 0⟩ ∧
    centroid (corners_3d boardParams) = ⟨-25 / 2, -25 / 2, 0⟩ ∧
    centroid (corners_3d boardParams) ≠ ⟨0, 0, 0⟩ := by
  decide!

/-! ### C13: board reference points in the camera frame -/

/-- The stored column is the camera-frame image of the point with its `z` dropped. -/
theorem cornerVector_eq_drop_z (r : Mat3) (t p : Vec3) :
    cornerVector r t p = poseTransform r t ⟨p.x, p.y, 0⟩ := by
  simp [cornerVector, poseTransform, Mat3.mulVec, Vec3.dot, Vec3.add]

/-- For a point of the plane `z = 0` the stored column is `R * p + t`. -/
theorem cornerVector_eq_of_z_zero (r : Mat3) (t p : Vec3) (hz : p.z = 0) :
    cornerVector r t p = poseTransform r t p := by
  simp [cornerVector, poseTransform, Mat3.mulVec, Vec3.dot, Vec3.add, hz]

/-- The camera-frame image differs from the stored column by `p.z` times the third column of
the rotation. -/
theorem poseTransform_eq_cornerVector_add (r : Mat3) (t p : Vec3) :
    poseTransform r t p =
      (cornerVector r t p).add (Vec3.smul p.z ⟨r.row0.z, r.row1.z, r.row2.z⟩) := by
  simp only [cornerVector, poseTransform, Mat3.mulVec, Vec3.dot, Vec3.add, Vec3.smul,
    Vec3.mk.injEq]
  refine ⟨?_, ?_, ?_⟩ <;> ring

/-- C13 (fails on the code): with the identity rotation, translation `(0, 0, 2000)` and the
pattern-to-board offset `(0, 0, 10)`, every board reference point has `z = -10` and
camera-frame image with `z = 1990`, while `corner_vectors` stores `z = 2000` in all five
columns; the emitted `camerapoint` (column 4) is `(0, 0, 2000)`, not
`R * (-cb_translation_error) + t = (0, 0, 1990)`. -/
theorem corner_vectors_drop_z :
    board_corners_3d offsetParams =
      [⟨-300, -225, -10⟩, ⟨-300, 225, -10⟩, ⟨300, -225, -10⟩, ⟨300, 225, -10⟩, ⟨0, 0, -10⟩] ∧
    (board_corners_3d offsetParams).map (poseTransform boardImage.tmprmat boardImage.tvec) =
      [⟨-300, -225, 1990⟩, ⟨-300, 225, 1990⟩, ⟨300, -225, 1990⟩, ⟨300, 225, 1990⟩,
       ⟨0, 0, 1990⟩] ∧
    corner_vectors offsetParams boardImage =
      [⟨-300, -225, 2000⟩, ⟨-300, 225, 2000⟩, ⟨300, -225, 2000⟩, ⟨300, 225, 2000⟩,
       ⟨0, 0, 2000⟩] ∧
    (corner_vectors offsetParams boardImage).getD 4 (eyeColumn 4) = ⟨0, 0, 2000⟩ ∧
    poseTransform boardImage.tmprmat boardImage.tvec offsetParams.cb_translation_error.neg =
      ⟨0, 0, 1990⟩ := by
  decide!

/-! ### C14: sign and norm of the cloud-side normal -/

/-- Over `ℚ` with the library `sqrt`, `velodyneNormalIn` is the function `velodyneNormal` of
the pipeline. -/
theorem velodyneNormal_eq_velodyneNormalIn (env : Env) (a b c mag : ℚ) (velodynepoint : Vec3) :
    velodyneNormal env a b c mag velodynepoint =
      Vec3.ofTriple (velodyneNormalIn env.sqrt a b c mag velodynepoint.x velodynepoint.y) := by
  unfold velodyneNormal velodyneNormalIn
  dsimp only
  split_ifs <;> rfl

/-- The value `mag` of `cloudFeatures` is `magIn` over `ℚ` with the library `sqrt`. -/
theorem mag_eq_magIn (env : Env) (a b c : ℚ) :
    magIn env.sqrt a b c = env.sqrt (a ^ 2 + b ^ 2 + c ^ 2) := rfl

/-- The centroid `velodynepoint / 1000` of an assembled sample is the midpoint of the first
two corners. -/
theorem centre_eq_midpoint (c0 c1 : Vec3) :
    Vec3.smul (1 / 1000)
      ⟨(c0.x + c1.x) * 1000 / 2, (c0.y + c1.y) * 1000 / 2, (c0.z + c1.z) * 1000 / 2⟩ =
      midpoint c0 c1 := by
  simp only [midpoint, Vec3.smul, Vec3.add, Vec3.mk.injEq]
  refine ⟨?_, ?_, ?_⟩ <;> ring

/-- Every sample assembled from at least three corners has centroid `velodynepoint / 1000` the
midpoint of the first two corners and carries the normal `velodyneNormalIn` computes from its
own `velodynepoint`. -/
theorem emitted_normal_eq (env : Env) (a b c mag : ℚ) (c0 c1 c2 : Vec3)
    (rest corner_vectors : List Vec3) (chessboard_normal : Vec3) :
    ∃ sample_data,
      assembleSample env a b c mag ([c0, c1] ++ c2 :: rest) corner_vectors chessboard_normal =
        Except.ok sample_data ∧
      Vec3.smul (1 / 1000) sample_data.velodynepoint = midpoint c0 c1 ∧
      sample_data.velodynenormal =
        Vec3.ofTriple (velodyneNormalIn env.sqrt a b c mag sample_data.velodynepoint.x
          sample_data.velodynepoint.y) :=
  ⟨_, assembleSample_ok env a b c mag c0 c1 c2 rest corner_vectors chessboard_normal,
    centre_eq_midpoint c0 c1, velodyneNormal_eq_velodyneNormalIn env a b c mag _⟩

/-- Square roots compare as their non-negative arguments. -/
theorem SqrtOn.gt_iff {K : Type} [LinearOrderedField K] {sqrt : K → K} (hsqrt : SqrtOn sqrt)
    {x y : K} (hx : 0 ≤ x) (hy : 0 ≤ y) : sqrt x > sqrt y ↔ x > y := by
  obtain ⟨p1, e1⟩ := hsqrt x hx
  obtain ⟨p2, e2⟩ := hsqrt y hy
  constructor
  · intro h
    rw [← e1, ← e2]
    nlinarith
  · intro h
    rw [← e1, ← e2] at h
    by_contra hle
    have hle' : sqrt x ≤ sqrt y := not_lt.1 hle
    nlinarith

/-- The square root of 1 is 1. -/
theorem SqrtOn.one {K : Type} [LinearOrderedField K] {sqrt : K → K} (hsqrt : SqrtOn sqrt) :
    sqrt 1 = 1 := by
  obtain ⟨p, e⟩ := hsqrt 1 zero_le_one
  nlinarith

/-- With `mag` the square root of `a^2 + b^2 + c^2 > 0`, the vector `-(a, b, c) / mag` and its
negation have squared length 1. -/
theorem planeNormalIn_sq {K : Type} [LinearOrderedField K] {sqrt : K → K} (hsqrt : SqrtOn sqrt)
    (a b c : K) (hne : a ≠ 0 ∨ b ≠ 0 ∨ c ≠ 0) :
    (-a / magIn sqrt a b c) ^ 2 + (-b / magIn sqrt a b c) ^ 2 + (-c / magIn sqrt a b c) ^ 2 =
      1 := by
  have hpos : 0 < a ^ 2 + b ^ 2 + c ^ 2 := by
    rcases hne with h | h | h
    · have := pow_pos (abs_pos.2 h) 2
      rw [sq_abs] at this
      nlinarith [sq_nonneg b, sq_nonneg c]
    · have := pow_pos (abs_pos.2 h) 2
      rw [sq_abs] at this
      nlinarith [sq_nonneg a, sq_nonneg c]
    · have := pow_pos (abs_pos.2 h) 2
      rw [sq_abs] at this
      nlinarith [sq_nonneg a, sq_nonneg b]
  obtain ⟨_, hsq⟩ := hsqrt _ hpos.le
  have hm : magIn sqrt a b c ≠ 0 := by
    intro h0
    unfold magIn at h0
    rw [h0] at hsq
    linarith
  have hsq' : magIn sqrt a b c * magIn sqrt a b c = a ^ 2 + b ^ 2 + c ^ 2 := hsq
  field_simp
  linarith

/-- On `farSideCorners` with the plane `3x + 4y + 25 = 0` the initial normal `(-3/5, -4/5, 0)`
points away from the sensor and is flipped to `(3/5, 4/5, 0)`. -/
theorem far_side_normal_flipped :
    assembleSample noModelEnv 3 4 0 (noModelEnv.sqrt (3 ^ 2 + 4 ^ 2 + 0 ^ 2)) farSideCorners
        (corner_vectors boardParams boardImage) (chessboard_normal boardImage) =
      Except.ok ⟨⟨-3000, -4000, 0⟩, ⟨3 / 5, 4 / 5, 0⟩, ⟨0, 0, 2000⟩, ⟨0, 0, 1⟩,
        ⟨-3, -4, 1 / 2⟩⟩ := by
  decide!

/-! ### C15: direction of the emitted normal -/

/-- On `farSideCorners` the flipped normal `(3/5, 4/5, 0)` satisfies the inequality
(`1 ≤ 4 * 5`) and `C + n / 2` is nearer to the sensor than `C` (`81/4 ≤ 25`). -/
theorem far_side_normal_toward_sensor :
    topDownSq (⟨3 / 5, 4 / 5, 0⟩ : Vec3) ≤ 4 * |horizontalDot ⟨-3, -4, 0⟩ ⟨3 / 5, 4 / 5, 0⟩| ∧
    topDownSq ((⟨-3, -4, 0⟩ : Vec3).add (Vec3.smul (1 / 2) ⟨3 / 5, 4 / 5, 0⟩)) ≤
      topDownSq ⟨-3, -4, 0⟩ := by
  constructor
  · norm_num [topDownSq, horizontalDot]
  · norm_num [topDownSq, Vec3.add, Vec3.smul]

end CamLidar
